import Mathlib

/-!
# Verification of the route-planning core

A shallow embedding, in Lean 4, of the algorithmic core of the repository:
graph construction from directions data (`app/routing/graph_builder.py`),
shortest / k-shortest path search (`app/routing/dijkstra.py`), direct and
one-transfer journey discovery (`app/utils/route_connector.py`), and
stop-level schedule generation (`app/utils/schedule_generator.py`).

Modelling conventions, used throughout:

* Python floats are modelled as exact rationals (`ℚ`).  `round(x, n)` is
  modelled as decimal rounding of the exact rational (Python's float
  `round` is round-half-to-even on binary floats; away from ties the two
  agree, and no statement below depends on tie behaviour).  `int(x)` is
  truncation toward zero.
* The haversine great-circle distance (`_haversine_distance`,
  `_calculate_distance`) is a fixed transcendental formula over `sin`,
  `cos`, `atan2`, `sqrt`; exact real evaluation of it is not executable.
  It is therefore abstracted as an explicit function parameter
  `dist : Coord → Coord → ℚ` of every definition that calls it.  Where a
  property genuinely needs metric facts about haversine (nonnegativity,
  triangle inequality — both true of the great-circle distance in exact
  real arithmetic), those facts appear as explicit hypotheses on `dist`.
* The reverse-geocoding collaborator (`google_maps_client.reverse_geocode`)
  is abstracted as a function returning `Except Unit (List GeoEntry)`;
  `Except.error` models any raised exception.
* Clock values ("HH:MM" strings, `datetime` values restricted to one day)
  are modelled as minutes; string parsing/formatting of clock values is
  not modelled.
* Functions whose Python source can raise on some inputs (division by
  zero in `generate_intermediate_stops`) return `Option`, with `none`
  modelling the raised exception.
-/

-- The arithmetic on `ℚ` is sealed behind `@[irreducible]` upstream; reopen
-- it so that concrete instances of the definitions below evaluate by
-- `decide`/`rfl`.
unseal Rat.mul Rat.add Rat.inv Rat.sub

/-- A latitude/longitude pair, as used both for graph nodes and for
polyline waypoints. -/
abbrev Coord := ℚ × ℚ

/-- Decimal rounding to `n` fractional digits, modelling Python's
`round(x, n)` on exact rationals. -/
def pyRound (n : ℕ) (x : ℚ) : ℚ := ((round (x * (10 ^ n : ℕ)) : ℤ) : ℚ) / (10 ^ n : ℕ)

/-- `round(x, 6)`, the node-key precision of `GraphBuilder`. -/
def round6 (x : ℚ) : ℚ := pyRound 6 x

/-- `round(x, 2)`, used for reported kilometre values. -/
def round2 (x : ℚ) : ℚ := pyRound 2 x

/-- Python `int(x)`: truncation toward zero. -/
def pyInt (x : ℚ) : ℤ := if x < 0 then -(⌊-x⌋) else ⌊x⌋

/-- `pyRound` is monotone (rounding to a fixed precision preserves `≤`). -/
theorem pyRound_mono (n : ℕ) {x y : ℚ} (h : x ≤ y) : pyRound n x ≤ pyRound n y := by
  unfold pyRound
  have hp : (0 : ℚ) < ((10 : ℚ) ^ n) := by positivity
  have hm : x * (10 ^ n : ℕ) ≤ y * (10 ^ n : ℕ) := by
    push_cast
    exact mul_le_mul_of_nonneg_right h (le_of_lt hp)
  have hr : (round (x * (10 ^ n : ℕ)) : ℤ) ≤ round (y * (10 ^ n : ℕ)) := by
    rw [round_eq, round_eq]
    exact Int.floor_le_floor (by linarith)
  have : ((round (x * (10 ^ n : ℕ)) : ℤ) : ℚ) ≤ ((round (y * (10 ^ n : ℕ)) : ℤ) : ℚ) := by
    exact_mod_cast hr
  have hp' : (0 : ℚ) < ((10 ^ n : ℕ) : ℚ) := by push_cast; exact hp
  exact (div_le_div_iff_of_pos_right hp').mpr this

/-! ## GraphBuilder (`app/routing/graph_builder.py`)

`GraphBuilder.build_from_directions` walks Google-Maps style directions
(routes → legs → steps), rounds each step's endpoint coordinates to six
decimals to form node keys, and inserts nodes and directed edges into a
`networkx.DiGraph`.  `DiGraph.add_node` / `DiGraph.add_edge` on an
existing node/edge *update* the stored attribute dictionary with the
newly supplied values; since every call supplies the same attribute keys,
a repeated insertion overwrites the previous attributes.  The graph is
modelled as association lists with exactly that update-in-place
semantics. -/

/-- Attributes stored on a directed edge by `build_from_directions`:
`distance` (metres), `duration` (seconds), `weight` (= duration) and the
step's `html_instructions`. -/
structure EdgeAttr where
  distance : ℚ
  duration : ℚ
  weight : ℚ
  instructions : String
deriving DecidableEq

/-- A directed graph over rounded-coordinate node keys: `networkx.DiGraph`
restricted to what the repository stores in it.  Node attributes are the
unrounded `lat`/`lng`; edge attributes are `EdgeAttr`. -/
structure DiGraph where
  nodes : List (Coord × Coord)
  edges : List ((Coord × Coord) × EdgeAttr)
deriving DecidableEq

/-- The empty graph (`nx.DiGraph()` after `clear()`). -/
def DiGraph.empty : DiGraph := ⟨[], []⟩

/-- Insert-or-update in an association list: if the key is present its
value is replaced in place, otherwise the pair is appended.  This is the
`networkx` semantics of repeated `add_node` / `add_edge` calls. -/
def setAssoc {α β : Type} [DecidableEq α] (l : List (α × β)) (k : α) (v : β) :
    List (α × β) :=
  match l with
  | [] => [(k, v)]
  | e :: t => if e.1 = k then (k, v) :: t else e :: setAssoc t k v

/-- `DiGraph.add_node(key, lat=…, lng=…)`. -/
def DiGraph.addNode (g : DiGraph) (k : Coord) (attr : Coord) : DiGraph :=
  ⟨setAssoc g.nodes k attr, g.edges⟩

/-- `DiGraph.add_edge(u, v, …attrs…)`. -/
def DiGraph.addEdge (g : DiGraph) (k : Coord × Coord) (a : EdgeAttr) : DiGraph :=
  ⟨g.nodes, setAssoc g.edges k a⟩

/-- Edge-attribute lookup, `g[u][v]` as an `Option`. -/
def DiGraph.edgeAttr? (g : DiGraph) (k : Coord × Coord) : Option EdgeAttr :=
  (g.edges.find? (fun e => e.1 = k)).map (·.2)

/-- One step of a directions leg: `start_location`, `end_location`,
`distance.value` (metres), `duration.value` (seconds),
`html_instructions`. -/
structure GStep where
  startLat : ℚ
  startLng : ℚ
  endLat : ℚ
  endLng : ℚ
  distanceM : ℚ
  durationS : ℚ
  htmlInstructions : String
deriving DecidableEq

/-- A leg of a route: its list of steps (`leg.get("steps", [])`). -/
structure GLeg where
  steps : List GStep
deriving DecidableEq

/-- One route alternative: its legs (`route.get("legs", [])`). -/
structure GRoute where
  legs : List GLeg
deriving DecidableEq

/-- The rounded node key of a step's start location. -/
def GStep.startNode (s : GStep) : Coord := (round6 s.startLat, round6 s.startLng)

/-- The rounded node key of a step's end location. -/
def GStep.endNode (s : GStep) : Coord := (round6 s.endLat, round6 s.endLng)

/-- The directed edge key a step produces. -/
def GStep.edgeKey (s : GStep) : Coord × Coord := (s.startNode, s.endNode)

/-- The edge attributes a step produces (`weight = duration`). -/
def GStep.attr (s : GStep) : EdgeAttr :=
  ⟨s.distanceM, s.durationS, s.durationS, s.htmlInstructions⟩

/-- The body of the innermost loop of `build_from_directions`: add both
endpoint nodes, then add the directed edge. -/
def buildStep (g : DiGraph) (s : GStep) : DiGraph :=
  ((g.addNode s.startNode (s.startLat, s.startLng)).addNode s.endNode (s.endLat, s.endLng)).addEdge
    s.edgeKey s.attr

/-- `GraphBuilder.build_from_directions`: clear the graph, then fold
`buildStep` over every step of every leg of every route, in order. -/
def buildFromDirections (directions : List GRoute) : DiGraph :=
  directions.foldl
    (fun g route =>
      route.legs.foldl (fun g leg => leg.steps.foldl buildStep g) g)
    DiGraph.empty

/-- All steps of a directions list, in traversal order. -/
def allSteps (directions : List GRoute) : List GStep :=
  directions.flatMap (fun r => r.legs.flatMap (fun l => l.steps))

/-- `find?` on an updated association list, at the updated key. -/
theorem find?_setAssoc_self {β : Type} [DecidableEq Coord]
    (l : List ((Coord × Coord) × β)) (k : Coord × Coord) (v : β) :
    (setAssoc l k v).find? (fun e => e.1 = k) = some (k, v) := by
  induction l with
  | nil => simp [setAssoc, List.find?]
  | cons e t ih =>
    by_cases h : e.1 = k
    · simp [setAssoc, h, List.find?]
    · rw [setAssoc, if_neg h, List.find?_cons_of_neg _ (by simp [h])]
      exact ih

/-- `find?` on an updated association list, at any other key. -/
theorem find?_setAssoc_ne {β : Type} [DecidableEq Coord]
    (l : List ((Coord × Coord) × β)) (k k' : Coord × Coord) (v : β) (h : k' ≠ k) :
    (setAssoc l k v).find? (fun e => e.1 = k') = l.find? (fun e => e.1 = k') := by
  induction l with
  | nil => simp [setAssoc, List.find?, Ne.symm h]
  | cons e t ih =>
    by_cases he : e.1 = k
    · rw [setAssoc, if_pos he, List.find?_cons_of_neg _ (by simp [Ne.symm h]),
        List.find?_cons_of_neg _ (by simp [he, Ne.symm h])]
    · rw [setAssoc, if_neg he]
      by_cases he' : e.1 = k'
      · rw [List.find?_cons_of_pos _ (by simp [he']), List.find?_cons_of_pos _ (by simp [he'])]
      · rw [List.find?_cons_of_neg _ (by simp [he']), List.find?_cons_of_neg _ (by simp [he'])]
        exact ih

/-- `addNode` leaves the edge list untouched. -/
theorem edges_addNode (g : DiGraph) (k : Coord) (a : Coord) :
    (g.addNode k a).edges = g.edges := rfl

/-- Edge lookup after `addEdge`: the written key now maps to the new
attributes; every other key is unaffected.  This is the `networkx`
overwrite semantics. -/
theorem edgeAttr?_addEdge (g : DiGraph) (k k' : Coord × Coord) (a : EdgeAttr) :
    (g.addEdge k a).edgeAttr? k' = if k' = k then some a else g.edgeAttr? k' := by
  by_cases h : k' = k
  · subst h
    simp [DiGraph.addEdge, DiGraph.edgeAttr?, find?_setAssoc_self]
  · simp [DiGraph.addEdge, DiGraph.edgeAttr?, find?_setAssoc_ne _ _ _ _ h, h]

/-- Edge lookup after processing one step. -/
theorem edgeAttr?_buildStep (g : DiGraph) (s : GStep) (k : Coord × Coord) :
    (buildStep g s).edgeAttr? k = if k = s.edgeKey then some s.attr else g.edgeAttr? k := by
  unfold buildStep
  rw [edgeAttr?_addEdge]
  rfl

/-- Edge lookup after folding a list of steps: the last matching step in
the list wins; if none matches, the base graph's value is returned. -/
theorem edgeAttr?_foldl_buildStep (l : List GStep) (g : DiGraph) (k : Coord × Coord) :
    (l.foldl buildStep g).edgeAttr? k =
      match (l.filter (fun s => s.edgeKey = k)).getLast? with
      | some u => some u.attr
      | none => g.edgeAttr? k := by
  induction l generalizing g with
  | nil => simp
  | cons s t ih =>
    rw [List.foldl_cons, ih]
    by_cases hs : s.edgeKey = k
    · rw [List.filter_cons_of_pos (by simp [hs])]
      cases htf : (t.filter (fun s => s.edgeKey = k)).getLast? with
      | some u =>
        have : t.filter (fun s => s.edgeKey = k) ≠ [] := by
          intro hnil; rw [hnil] at htf; simp at htf
        obtain ⟨x, xs, hxs⟩ := List.exists_cons_of_ne_nil this
        rw [hxs] at htf ⊢
        simp only [List.getLast?_cons_cons, htf]
      | none =>
        have : t.filter (fun s => s.edgeKey = k) = [] :=
          List.getLast?_eq_none_iff.mp htf
        rw [this]
        simp [edgeAttr?_buildStep, hs.symm]
    · rw [List.filter_cons_of_neg (by simp [hs])]
      cases htf : (t.filter (fun s => s.edgeKey = k)).getLast? with
      | some u => rfl
      | none => rw [edgeAttr?_buildStep, if_neg (fun h => hs h.symm)]

/-- Folding the nested loops of `build_from_directions` equals folding the
flattened step list. -/
theorem buildFromDirections_eq_foldl (directions : List GRoute) :
    buildFromDirections directions = (allSteps directions).foldl buildStep DiGraph.empty := by
  suffices h : ∀ (ds : List GRoute) (g : DiGraph),
      ds.foldl (fun g route => route.legs.foldl (fun g leg => leg.steps.foldl buildStep g) g) g =
        (allSteps ds).foldl buildStep g from h directions DiGraph.empty
  intro ds
  induction ds with
  | nil => intro g; simp [allSteps]
  | cons r rs ih =>
    intro g
    rw [List.foldl_cons, ih]
    have hleg : ∀ (legs : List GLeg) (g : DiGraph),
        legs.foldl (fun g leg => leg.steps.foldl buildStep g) g =
          (legs.flatMap (fun l => l.steps)).foldl buildStep g := by
      intro legs
      induction legs with
      | nil => intro g; simp
      | cons l ls ihl =>
        intro g
        rw [List.foldl_cons, ihl, List.flatMap_cons, List.foldl_append]
    rw [hleg]
    simp only [allSteps, List.flatMap_cons, List.foldl_append]

/-- C1, corrected.  In `build_from_directions`, when several segments
produce a directed edge between the same pair of rounded-coordinate
nodes, the edge's attributes in the resulting graph are those of the
**last**-seen such segment (`networkx.add_edge` overwrites attributes of
an existing edge); no averaging occurs. -/
theorem buildFromDirections_last_seen_wins (directions : List GRoute) (k : Coord × Coord) :
    (buildFromDirections directions).edgeAttr? k =
      ((allSteps directions).filter (fun s => s.edgeKey = k)).getLast?.map GStep.attr := by
  rw [buildFromDirections_eq_foldl, edgeAttr?_foldl_buildStep]
  cases ((allSteps directions).filter (fun s => s.edgeKey = k)).getLast? with
  | some u => rfl
  | none => rfl

/-- C1, counterexample to the claim as stated: two steps produce the same
rounded edge `(0,0) → (1,1)` with different attributes; the resulting
graph holds the attributes of the *second* (last-seen) segment, not the
first-seen ones. -/
theorem buildFromDirections_overwrites_counterexample :
    (buildFromDirections
        [⟨[⟨[⟨0, 0, 1, 1, 100, 10, ""⟩, ⟨0, 0, 1, 1, 200, 20, ""⟩]⟩]⟩]).edgeAttr?
        (((0 : ℚ), (0 : ℚ)), ((1 : ℚ), (1 : ℚ))) = some ⟨200, 20, 20, ""⟩ ∧
      (⟨200, 20, 20, ""⟩ : EdgeAttr) ≠ ⟨100, 10, 10, ""⟩ := by
  constructor
  · decide
  · decide

/-! ## PathFinder (`app/routing/dijkstra.py`)

`DijkstraPathfinder.find_shortest_path` wraps `nx.dijkstra_path` and
returns `None` on `NetworkXNoPath` / `NodeNotFound`;
`find_k_shortest_paths` wraps `nx.shortest_simple_paths` (Yen-style
loopless enumeration), takes the first `k` yielded paths, and returns
`[]` on any exception.

The two `networkx` library calls are modelled by their documented
denotation over the finite graph: `shortest_simple_paths` yields exactly
the simple (loopless) `s→t` paths in order of non-decreasing total
`weight`, and `dijkstra_path` returns a minimum-weight such path (for
`source == target`, the library returns the one-node path `[source]`;
for a source or target absent from the graph it raises `NodeNotFound`).
Concretely: enumerate all simple paths, sort them (stably) by total
weight, and take a head / the first `k`. -/

/-- The node-key list of a graph (`g.nodes()`). -/
def DiGraph.nodeKeys (g : DiGraph) : List Coord := g.nodes.map (·.1)

/-- Successors of a node (`g.neighbors(u)` on a `DiGraph`). -/
def DiGraph.successors (g : DiGraph) (u : Coord) : List Coord :=
  g.edges.filterMap (fun e => if e.1.1 = u then some e.1.2 else none)

/-- Whether the directed edge `u → v` exists. -/
def DiGraph.hasEdge (g : DiGraph) (u v : Coord) : Bool :=
  (g.edgeAttr? (u, v)).isSome

/-- The `weight` attribute of edge `u → v` (`g[u][v]['weight']`; every
path below only traverses existing edges, so the `0` default is never
exercised by them). -/
def DiGraph.weightD (g : DiGraph) (u v : Coord) : ℚ :=
  ((g.edgeAttr? (u, v)).map EdgeAttr.weight).getD 0

/-- The `distance` attribute of edge `u → v` with default `0`
(`g[u][v].get('distance', 0)`). -/
def DiGraph.distD (g : DiGraph) (u v : Coord) : ℚ :=
  ((g.edgeAttr? (u, v)).map EdgeAttr.distance).getD 0

/-- Total `weight` of a path (`sum(graph[p[j]][p[j+1]]['weight'])`). -/
def pathWeight (g : DiGraph) : List Coord → ℚ
  | a :: b :: rest => g.weightD a b + pathWeight g (b :: rest)
  | _ => 0

/-- Total `distance` of a path (`sum(graph[p[j]][p[j+1]].get('distance', 0))`). -/
def pathDistance (g : DiGraph) : List Coord → ℚ
  | a :: b :: rest => g.distD a b + pathDistance g (b :: rest)
  | _ => 0

/-- All simple paths from `cur` to `tgt` avoiding `visited`, by depth-first
enumeration; `fuel` bounds the recursion depth (any simple path has at
most `|nodes|` nodes, so the fuel chosen in `allSimplePaths` is never
exhausted on paths that matter). -/
def simplePathsAux (g : DiGraph) : ℕ → Coord → Coord → List Coord → List (List Coord)
  | 0, _, _, _ => []
  | fuel + 1, cur, tgt, visited =>
    if cur = tgt then [[cur]]
    else
      ((g.successors cur).filter (fun v => decide (v ∉ cur :: visited))).flatMap
        (fun v => (simplePathsAux g fuel v tgt (cur :: visited)).map (cur :: ·))

/-- All simple `s → t` paths of the graph. -/
def allSimplePaths (g : DiGraph) (s t : Coord) : List (List Coord) :=
  simplePathsAux g (g.nodes.length + 1) s t []

/-- Insert into a sorted list, after existing entries that compare `≤`.
(Structurally recursive so that concrete instances evaluate inside the
kernel.) -/
def insertIntoSorted {α : Type} (le : α → α → Bool) (a : α) : List α → List α
  | [] => [a]
  | b :: t => if le b a then b :: insertIntoSorted le a t else a :: b :: t

/-- Insertion sort.  Models the "yield paths in non-decreasing total
weight" contract of `nx.shortest_simple_paths`; among equal-weight paths
the library's order is an unspecified implementation detail, and this
model fixes one such order. -/
def insertionSort {α : Type} (le : α → α → Bool) : List α → List α
  | [] => []
  | a :: t => insertIntoSorted le a (insertionSort le t)

/-- Membership in `insertIntoSorted`. -/
theorem mem_insertIntoSorted {α : Type} (le : α → α → Bool) (a x : α) :
    ∀ (l : List α), x ∈ insertIntoSorted le a l ↔ x = a ∨ x ∈ l := by
  intro l
  induction l with
  | nil => simp [insertIntoSorted]
  | cons b t ih =>
    by_cases h : le b a
    · rw [insertIntoSorted, if_pos h]
      simp only [List.mem_cons, ih]
      tauto
    · rw [insertIntoSorted, if_neg h]
      simp only [List.mem_cons]

/-- Membership in `insertionSort`. -/
theorem mem_insertionSort {α : Type} (le : α → α → Bool) (x : α) :
    ∀ (l : List α), x ∈ insertionSort le l ↔ x ∈ l := by
  intro l
  induction l with
  | nil => simp [insertionSort]
  | cons a t ih =>
    rw [insertionSort, mem_insertIntoSorted]
    simp only [List.mem_cons, ih]

/-- Inserting into a sorted list keeps it sorted (for a transitive, total
comparison). -/
theorem pairwise_insertIntoSorted {α : Type} (le : α → α → Bool)
    (htrans : ∀ a b c, le a b → le b c → le a c)
    (htotal : ∀ a b, (le a b || le b a) = true) (a : α) :
    ∀ (l : List α), l.Pairwise (le · ·) → (insertIntoSorted le a l).Pairwise (le · ·) := by
  intro l
  induction l with
  | nil => intro _; simp [insertIntoSorted]
  | cons b t ih =>
    intro hl
    rw [List.pairwise_cons] at hl
    obtain ⟨hb, ht⟩ := hl
    by_cases h : le b a
    · rw [insertIntoSorted, if_pos h]
      rw [List.pairwise_cons]
      refine ⟨?_, ih ht⟩
      intro x hx
      rcases (mem_insertIntoSorted le a x t).mp hx with rfl | hxt
      · exact h
      · exact hb x hxt
    · rw [insertIntoSorted, if_neg h]
      have hab : le a b = true := by
        have := htotal a b
        rcases Bool.or_eq_true_iff.mp this with h' | h'
        · exact h'
        · exact absurd h' h
      rw [List.pairwise_cons]
      refine ⟨?_, by rw [List.pairwise_cons]; exact ⟨hb, ht⟩⟩
      intro x hx
      rcases List.mem_cons.mp hx with rfl | hxt
      · exact hab
      · exact htrans a b x hab (hb x hxt)

/-- `insertionSort` sorts (for a transitive, total comparison). -/
theorem pairwise_insertionSort {α : Type} (le : α → α → Bool)
    (htrans : ∀ a b c, le a b → le b c → le a c)
    (htotal : ∀ a b, (le a b || le b a) = true) :
    ∀ (l : List α), (insertionSort le l).Pairwise (le · ·) := by
  intro l
  induction l with
  | nil => simp [insertionSort]
  | cons a t ih =>
    rw [insertionSort]
    exact pairwise_insertIntoSorted le htrans htotal a _ ih

/-- The record `find_k_shortest_paths` builds for each yielded path. -/
structure PathRec where
  path : List Coord
  cost : ℚ
  distanceM : ℚ
  distanceKm : ℚ
deriving DecidableEq

/-- Build the result record for one path. -/
def mkPathRec (g : DiGraph) (p : List Coord) : PathRec :=
  ⟨p, pathWeight g p, pathDistance g p, pathDistance g p / 1000⟩

/-- `DijkstraPathfinder.find_k_shortest_paths`: the first `k` simple paths
in non-decreasing weight order, as records; `[]` when the source or
target is not a node (`NodeNotFound` is caught) or no path exists. -/
def findKShortestPaths (g : DiGraph) (s t : Coord) (k : ℕ) : List PathRec :=
  if s ∈ g.nodeKeys ∧ t ∈ g.nodeKeys then
    (((insertionSort (fun p q => decide (pathWeight g p ≤ pathWeight g q))
        (allSimplePaths g s t)).map (mkPathRec g)).take k)
  else []

/-- `DijkstraPathfinder.find_shortest_path`: a minimum-weight simple path,
`none` when the source or target is missing or no path exists. -/
def findShortestPath (g : DiGraph) (s t : Coord) : Option (List Coord) :=
  if s ∈ g.nodeKeys ∧ t ∈ g.nodeKeys then
    (insertionSort (fun p q => decide (pathWeight g p ≤ pathWeight g q))
        (allSimplePaths g s t)).head?
  else none

/-- A walk from `s` to `t` along existing directed edges (not necessarily
loopless).  `shortestPath`/`kShortestPaths` can return a result exactly
when such a walk exists. -/
def isWalk (g : DiGraph) (s t : Coord) (p : List Coord) : Prop :=
  p.head? = some s ∧ p.getLast? = some t ∧ p.Chain' (fun a b => g.hasEdge a b = true)

/-- Edge membership behind `DiGraph.successors`. -/
theorem mem_successors {g : DiGraph} {u v : Coord} :
    v ∈ g.successors u ↔ ∃ e ∈ g.edges, e.1 = (u, v) := by
  unfold DiGraph.successors
  rw [List.mem_filterMap]
  constructor
  · rintro ⟨e, he, hfe⟩
    by_cases h : e.1.1 = u
    · rw [if_pos h] at hfe
      exact ⟨e, he, by rw [Prod.ext_iff]; exact ⟨h, by simpa using hfe⟩⟩
    · rw [if_neg h] at hfe
      exact absurd hfe (by simp)
  · rintro ⟨e, he, hfe⟩
    exact ⟨e, he, by rw [if_pos (by rw [hfe])]; rw [hfe]⟩

/-- A successor edge exists in the graph. -/
theorem hasEdge_of_mem_successors {g : DiGraph} {u v : Coord} (h : v ∈ g.successors u) :
    g.hasEdge u v = true := by
  obtain ⟨e, he, hfe⟩ := mem_successors.mp h
  unfold DiGraph.hasEdge DiGraph.edgeAttr?
  have hfind : (List.find? (fun e => decide (e.1 = (u, v))) g.edges).isSome = true := by
    rw [List.find?_isSome]
    exact ⟨e, he, by simp [hfe]⟩
  obtain ⟨x, hx⟩ := Option.isSome_iff_exists.mp hfind
  rw [hx]
  rfl

/-- Soundness of the simple-path enumeration: every enumerated path starts
at `cur`, ends at `tgt`, repeats no node, avoids `visited`, and follows
existing directed edges. -/
theorem simplePathsAux_sound (g : DiGraph) :
    ∀ (fuel : ℕ) (cur tgt : Coord) (visited : List Coord) (p : List Coord),
      cur ∉ visited → p ∈ simplePathsAux g fuel cur tgt visited →
      p.head? = some cur ∧ p.getLast? = some tgt ∧ p.Nodup ∧
        (∀ x ∈ visited, x ∉ p) ∧ p.Chain' (fun a b => g.hasEdge a b = true) := by
  intro fuel
  induction fuel with
  | zero => intro cur tgt visited p _ hp; simp [simplePathsAux] at hp
  | succ n ih =>
    intro cur tgt visited p hcv hp
    by_cases hct : cur = tgt
    · subst hct
      rw [simplePathsAux, if_pos rfl] at hp
      simp only [List.mem_singleton] at hp
      subst hp
      refine ⟨rfl, rfl, by simp, ?_, by simp⟩
      intro x hx
      simp only [List.mem_singleton]
      intro hxc
      exact hcv (hxc ▸ hx)
    · rw [simplePathsAux, if_neg hct] at hp
      rw [List.mem_flatMap] at hp
      obtain ⟨v, hv, hpm⟩ := hp
      rw [List.mem_filter] at hv
      obtain ⟨hvsucc, hvnvis⟩ := hv
      rw [decide_eq_true_eq] at hvnvis
      rw [List.mem_map] at hpm
      obtain ⟨q, hq, rfl⟩ := hpm
      obtain ⟨hqh, hql, hqnd, hqdis, hqch⟩ := ih v tgt (cur :: visited) q hvnvis hq
      obtain ⟨x, xs, rfl⟩ : ∃ x xs, q = x :: xs := by
        cases q with
        | nil => simp at hqh
        | cons x xs => exact ⟨x, xs, rfl⟩
      obtain rfl : x = v := by simpa using hqh
      refine ⟨rfl, ?_, ?_, ?_, ?_⟩
      · rw [List.getLast?_cons_cons]
        exact hql
      · rw [List.nodup_cons]
        exact ⟨hqdis cur (List.mem_cons_self cur visited), hqnd⟩
      · intro y hy
        simp only [List.mem_cons, not_or]
        refine ⟨fun hyc => hcv (hyc ▸ hy), ?_⟩
        have := hqdis y (List.mem_cons_of_mem cur hy)
        simpa using this
      · rw [List.chain'_cons]
        exact ⟨hasEdge_of_mem_successors hvsucc, hqch⟩

/-- The edge sequence of a path: consecutive node pairs. -/
def pathEdges : List Coord → List (Coord × Coord)
  | a :: b :: rest => (a, b) :: pathEdges (b :: rest)
  | _ => []

/-- Two different paths that start at the same node have different edge
sequences (the start node and the edge sequence determine the path). -/
theorem pathEdges_ne_of_ne :
    ∀ (p : List Coord) (q : List Coord) (s : Coord),
      p.head? = some s → q.head? = some s → p ≠ q → pathEdges p ≠ pathEdges q := by
  intro p
  induction p with
  | nil => intro q s hp _ _; simp at hp
  | cons x p' ih =>
    intro q s hp hq hne
    cases q with
    | nil => simp at hq
    | cons y q' =>
      have hy : y = x := by
        have h1 : y = s := by simpa using hq
        have h2 : x = s := by simpa using hp
        rw [h1, h2]
      subst hy
      have hpq : p' ≠ q' := fun h => hne (by rw [h])
      cases p' with
      | nil =>
        cases q' with
        | nil => exact absurd rfl hpq
        | cons b q'' => intro hE; simp [pathEdges] at hE
      | cons a p'' =>
        cases q' with
        | nil => intro hE; simp [pathEdges] at hE
        | cons b q'' =>
          by_cases hab : a = b
          · subst hab
            intro hE
            rw [pathEdges, pathEdges] at hE
            exact ih (a :: q'') a rfl rfl hpq (List.cons_eq_cons.mp hE).2
          · intro hE
            rw [pathEdges, pathEdges] at hE
            exact hab (by simpa using (List.cons_eq_cons.mp hE).1)

/-- Transitivity of the weight comparison used for sorting. -/
theorem weightLe_trans (g : DiGraph) :
    ∀ (a b c : List Coord),
      decide (pathWeight g a ≤ pathWeight g b) →
      decide (pathWeight g b ≤ pathWeight g c) →
      decide (pathWeight g a ≤ pathWeight g c) := by
  intro a b c hab hbc
  rw [decide_eq_true_eq] at hab hbc ⊢
  exact le_trans hab hbc

/-- Totality of the weight comparison used for sorting. -/
theorem weightLe_total (g : DiGraph) :
    ∀ (a b : List Coord),
      (decide (pathWeight g a ≤ pathWeight g b) ||
        decide (pathWeight g b ≤ pathWeight g a)) = true := by
  intro a b
  rcases le_total (pathWeight g a) (pathWeight g b) with h | h <;> simp [h]

/-- C2.  `find_k_shortest_paths(s, t, k)` returns at most `k` records,
sorted by non-decreasing total weight (`cost`); every returned path is
loopless (no repeated node); and any two distinct returned paths differ
as edge sequences. -/
theorem findKShortestPaths_spec (g : DiGraph) (s t : Coord) (k : ℕ) :
    (findKShortestPaths g s t k).length ≤ k ∧
    (findKShortestPaths g s t k).Pairwise (fun a b => a.cost ≤ b.cost) ∧
    (∀ r ∈ findKShortestPaths g s t k, r.path.Nodup) ∧
    (∀ a ∈ findKShortestPaths g s t k, ∀ b ∈ findKShortestPaths g s t k,
      a.path ≠ b.path → pathEdges a.path ≠ pathEdges b.path) := by
  have hmem : ∀ r ∈ findKShortestPaths g s t k, r.path ∈ allSimplePaths g s t ∧
      r.path.Nodup ∧ r.path.head? = some s := by
    intro r hr
    unfold findKShortestPaths at hr
    split at hr
    · have hr' := List.mem_of_mem_take hr
      rw [List.mem_map] at hr'
      obtain ⟨p, hp, rfl⟩ := hr'
      rw [mem_insertionSort] at hp
      obtain ⟨h1, _, h3, _, _⟩ :=
        simplePathsAux_sound g _ s t [] p (by simp) hp
      exact ⟨hp, h3, h1⟩
    · simp at hr
  refine ⟨?_, ?_, ?_, ?_⟩
  · unfold findKShortestPaths
    split
    · rw [List.length_take]
      exact min_le_left _ _
    · simp
  · unfold findKShortestPaths
    split
    · apply List.Pairwise.sublist (List.take_sublist _ _)
      have hs := pairwise_insertionSort (fun p q => decide (pathWeight g p ≤ pathWeight g q))
        (weightLe_trans g) (weightLe_total g) (allSimplePaths g s t)
      refine List.Pairwise.map _ ?_ hs
      intro a b hab
      rw [decide_eq_true_eq] at hab
      exact hab
    · simp
  · intro r hr
    exact (hmem r hr).2.1
  · intro a ha b hb hne
    obtain ⟨_, _, hha⟩ := hmem a ha
    obtain ⟨_, _, hhb⟩ := hmem b hb
    exact pathEdges_ne_of_ne a.path b.path s hha hhb hne

/-- A concrete three-node graph used by witnesses: nodes `(0,0)`, `(1,0)`,
`(2,0)`; edges `(0,0)→(1,0)` and `(1,0)→(2,0)` of weight 1, and
`(0,0)→(2,0)` of weight 3. -/
def witnessGraph : DiGraph :=
  ⟨[(((0:ℚ), (0:ℚ)), ((0:ℚ), (0:ℚ))), (((1:ℚ), (0:ℚ)), ((1:ℚ), (0:ℚ))),
    (((2:ℚ), (0:ℚ)), ((2:ℚ), (0:ℚ)))],
   [((((0:ℚ), (0:ℚ)), ((1:ℚ), (0:ℚ))), ⟨10, 1, 1, ""⟩),
    ((((1:ℚ), (0:ℚ)), ((2:ℚ), (0:ℚ))), ⟨10, 1, 1, ""⟩),
    ((((0:ℚ), (0:ℚ)), ((2:ℚ), (0:ℚ))), ⟨10, 3, 3, ""⟩)]⟩

/-- C2 witness: on `witnessGraph`, the record for the direct path
`[(0,0),(2,0)]` is among the `findKShortestPaths` results, and the spec's
looplessness clause applies to it at that concrete member. -/
theorem findKShortestPaths_spec_witness :
    mkPathRec witnessGraph [((0:ℚ), (0:ℚ)), ((2:ℚ), (0:ℚ))] ∈
      findKShortestPaths witnessGraph ((0:ℚ), (0:ℚ)) ((2:ℚ), (0:ℚ)) 5 ∧
    (mkPathRec witnessGraph [((0:ℚ), (0:ℚ)), ((2:ℚ), (0:ℚ))]).path.Nodup := by
  constructor
  · decide
  · exact (findKShortestPaths_spec witnessGraph ((0:ℚ), (0:ℚ)) ((2:ℚ), (0:ℚ)) 5).2.2.1 _
      (by decide)

/-- C7, counterexample to the claim as stated: for an `s` that is not a
node of the graph, `nx.dijkstra_path` raises `NodeNotFound`, which
`find_shortest_path` catches, returning `None` — not the promised
single-node path.  Concretely, on the empty graph with `s = (0,0)`. -/
theorem findShortestPath_self_counterexample :
    findShortestPath DiGraph.empty ((0:ℚ), (0:ℚ)) ((0:ℚ), (0:ℚ)) ≠
      some [((0:ℚ), (0:ℚ))] := by
  decide

/-- C7, amended: for every `s` that is a node of the graph,
`find_shortest_path(s, s)` returns the trivial single-node path `[s]`,
whose total weight is `0`. -/
theorem findShortestPath_self (g : DiGraph) (s : Coord) (hs : s ∈ g.nodeKeys) :
    findShortestPath g s s = some [s] ∧ pathWeight g [s] = 0 := by
  constructor
  · unfold findShortestPath
    rw [if_pos ⟨hs, hs⟩]
    have h1 : allSimplePaths g s s = [[s]] := by
      unfold allSimplePaths
      rw [simplePathsAux, if_pos rfl]
    rw [h1]
    rfl
  · rfl

/-- C7 witness: the amended claim applied at `witnessGraph` and its node
`(0,0)`. -/
theorem findShortestPath_self_witness :
    ((0:ℚ), (0:ℚ)) ∈ witnessGraph.nodeKeys ∧
      findShortestPath witnessGraph ((0:ℚ), (0:ℚ)) ((0:ℚ), (0:ℚ)) =
        some [((0:ℚ), (0:ℚ))] :=
  ⟨by decide, (findShortestPath_self witnessGraph ((0:ℚ), (0:ℚ)) (by decide)).1⟩

/-- C8.  When no walk from `s` to `t` exists along the graph's directed
edges (in particular for `s`, `t` in disjoint components),
`find_shortest_path` returns `None` and `find_k_shortest_paths` returns
`[]` for every `k`; neither raises. -/
theorem disconnected_spec (g : DiGraph) (s t : Coord)
    (h : ∀ p, ¬ isWalk g s t p) :
    findShortestPath g s t = none ∧ ∀ k, findKShortestPaths g s t k = [] := by
  have hempty : allSimplePaths g s t = [] := by
    cases hne : allSimplePaths g s t with
    | nil => rfl
    | cons p ps =>
      exfalso
      have hmem : p ∈ allSimplePaths g s t := by
        rw [hne]; exact List.mem_cons_self p ps
      obtain ⟨h1, h2, _, _, h5⟩ := simplePathsAux_sound g _ s t [] p (by simp) hmem
      exact h p ⟨h1, h2, h5⟩
  constructor
  · unfold findShortestPath
    split
    · rw [hempty]; rfl
    · rfl
  · intro k
    unfold findKShortestPaths
    split
    · rw [hempty]
      simp [insertionSort]
    · rfl

/-- A concrete graph with two isolated nodes `(0,0)` and `(1,1)` and no
edges. -/
def disconnectedGraph : DiGraph :=
  ⟨[(((0:ℚ), (0:ℚ)), ((0:ℚ), (0:ℚ))), (((1:ℚ), (1:ℚ)), ((1:ℚ), (1:ℚ)))], []⟩

/-- C8 witness: on the edgeless two-node graph, no walk joins the two
nodes, and the claim's conclusions hold concretely (shown for `k = 5`). -/
theorem disconnected_spec_witness :
    findShortestPath disconnectedGraph ((0:ℚ), (0:ℚ)) ((1:ℚ), (1:ℚ)) = none ∧
      findKShortestPaths disconnectedGraph ((0:ℚ), (0:ℚ)) ((1:ℚ), (1:ℚ)) 5 = [] := by
  have hnowalk : ∀ p, ¬ isWalk disconnectedGraph ((0:ℚ), (0:ℚ)) ((1:ℚ), (1:ℚ)) p := by
    intro p hw
    obtain ⟨h1, h2, h3⟩ := hw
    cases p with
    | nil => simp at h1
    | cons a q =>
      have ha : a = ((0:ℚ), (0:ℚ)) := by simpa using h1
      cases q with
      | nil =>
        have hb : a = ((1:ℚ), (1:ℚ)) := by simpa using h2
        rw [ha] at hb
        exact absurd hb (by decide)
      | cons b r =>
        have hedge : disconnectedGraph.hasEdge a b = true := (List.chain'_cons.mp h3).1
        have : disconnectedGraph.hasEdge a b = false := by
          unfold DiGraph.hasEdge DiGraph.edgeAttr? disconnectedGraph
          rfl
        rw [this] at hedge
        exact absurd hedge (by decide)
  exact ⟨(disconnected_spec disconnectedGraph _ _ hnowalk).1,
    (disconnected_spec disconnectedGraph _ _ hnowalk).2 5⟩

/-! ## Reverse geocoding and place naming
(`RouteConnector._get_location_name`, `ScheduleGenerator._get_location_name`)

The collaborator `google_maps_client.reverse_geocode(lat, lng)` is
abstracted as a function into `Except Unit (List GeoEntry)`:
`Except.error ()` models any raised exception, `Except.ok l` a returned
result list.  Both `_get_location_name` implementations are total
functions into `String` — every exception path of the source is caught
and mapped to a formatted coordinate fallback. -/

/-- One entry of `address_components`. -/
structure AddrComp where
  longName : String
  types : List String
deriving DecidableEq

/-- One reverse-geocoding result. -/
structure GeoEntry where
  formattedAddress : String
  addressComponents : List AddrComp
deriving DecidableEq

/-- The reverse-geocoding collaborator. -/
abbrev Geo := ℚ → ℚ → Except Unit (List GeoEntry)

/-- The abstracted pairwise distance function standing for
`_haversine_distance` / `_calculate_distance` (see the module comment). -/
abbrev DistFn := Coord → Coord → ℚ

/-- Left-pad a digit string with zeros to width `n`. -/
def padZeros (s : String) (n : ℕ) : String :=
  String.mk (List.replicate (n - s.length) '0') ++ s

/-- Python `f"{x:.4f}"` on exact rationals: fixed-point rendering with
four fractional digits (ties rounded half-up here; the float original
rounds half-to-even — no statement below depends on tie behaviour). -/
def fmt4 (x : ℚ) : String :=
  (if round (x * 10000) < 0 then "-" else "") ++
    toString ((round (x * 10000) : ℤ).natAbs / 10000) ++ "." ++
    padZeros (toString ((round (x * 10000) : ℤ).natAbs % 10000)) 4

/-- The coordinate fallback string of `RouteConnector._get_location_name`:
`f"{lat:.4f}, {lng:.4f}"`. -/
def rcCoordString (lat lng : ℚ) : String := fmt4 lat ++ ", " ++ fmt4 lng

/-- `RouteConnector._get_location_name`: first part of the formatted
address when available, otherwise the coordinate string; any collaborator
error is caught and mapped to the coordinate string. -/
def rcGetLocationName (geo : Geo) (lat lng : ℚ) : String :=
  match geo lat lng with
  | Except.error _ => rcCoordString lat lng
  | Except.ok [] => rcCoordString lat lng
  | Except.ok (r :: _) =>
    if r.formattedAddress ≠ "" then (r.formattedAddress.splitOn ",").headD ""
    else rcCoordString lat lng

/-- The coordinate fallback string of
`ScheduleGenerator._get_location_name`: `f"Stop at {lat:.4f}, {lng:.4f}"`. -/
def sgCoordString (lat lng : ℚ) : String :=
  "Stop at " ++ fmt4 lat ++ ", " ++ fmt4 lng

/-- The priority order of address-component types. -/
def priorityTypes : List String :=
  ["neighborhood", "sublocality_level_1", "sublocality_level_2", "sublocality",
   "locality", "administrative_area_level_2"]

/-- The nested priority scan: for each priority type in order, the first
component carrying that type with a non-blank `long_name`. -/
def findPriorityName (comps : List AddrComp) : List String → Option String
  | [] => none
  | pt :: rest =>
    match comps.find? (fun c =>
        decide (pt ∈ c.types ∧ c.longName ≠ "" ∧ c.longName.trim ≠ "")) with
    | some c => some c.longName
    | none => findPriorityName comps rest

/-- `ScheduleGenerator._get_location_name`: priority component name, else
first non-blank part of the formatted address (stripped), else the
coordinate fallback; any collaborator error is caught and mapped to the
coordinate fallback. -/
def sgGetLocationName (geo : Geo) (lat lng : ℚ) : String :=
  match geo lat lng with
  | Except.error _ => sgCoordString lat lng
  | Except.ok [] => sgCoordString lat lng
  | Except.ok (r :: _) =>
    match findPriorityName r.addressComponents priorityTypes with
    | some nm => nm
    | none =>
      if r.formattedAddress ≠ "" ∧ ((r.formattedAddress.splitOn ",").headD "").trim ≠ "" then
        ((r.formattedAddress.splitOn ",").headD "").trim
      else sgCoordString lat lng

/-! ## TransferFinder (`app/utils/route_connector.py`)

Route records are modelled with well-formed waypoint lists (every
waypoint a `(lat, lng)` pair; the source's skip of malformed
sub-2-element entries is therefore vacuous). -/

/-- An active route record (`{route_id, name, waypoints}`). -/
structure RouteRec where
  routeId : String
  name : String
  waypoints : List Coord
deriving DecidableEq

/-- Boarding/alighting point info of a journey leg. -/
structure PointInfo where
  name : String
  lat : ℚ
  lng : ℚ
  walkDistanceKm : ℚ
deriving DecidableEq

/-- One journey leg. -/
structure Leg where
  routeId : String
  routeName : String
  boardingPoint : PointInfo
  alightingPoint : PointInfo
  distanceKm : ℚ
deriving DecidableEq

/-- A journey option (`type`, `total_legs`, `total_distance_km`,
`total_transfers`, `legs`). -/
structure JourneyOption where
  type : String
  totalLegs : ℕ
  totalDistanceKm : ℚ
  totalTransfers : ℕ
  legs : List Leg
deriving DecidableEq

/-- The scanning loop of `_find_nearest_point_on_route`: keep the
strictly closest waypoint seen so far (first index wins ties); `none`
models the `min_distance = inf`, `nearest_point = None` initial state. -/
def findNearestLoop (dist : DistFn) (p : Coord) :
    List Coord → ℕ → Option (Coord × ℕ) → ℚ → Option (Coord × ℕ)
  | [], _, best, _ => best
  | wp :: rest, i, best, minD =>
    match best with
    | none => findNearestLoop dist p rest (i + 1) (some (wp, i)) (dist p wp)
    | some b =>
      if dist p wp < minD then findNearestLoop dist p rest (i + 1) (some (wp, i)) (dist p wp)
      else findNearestLoop dist p rest (i + 1) (some b) minD

/-- `RouteConnector._find_nearest_point_on_route`: the waypoint (and its
index) nearest to `p`, `none` for an empty polyline. -/
def findNearestPointOnRoute (dist : DistFn) (wps : List Coord) (p : Coord) :
    Option (Coord × ℕ) :=
  findNearestLoop dist p wps 0 none 0

/-- `RouteConnector._calculate_route_segment_distance`: `0.0` when
`start_index >= end_index` or `end_index` is past the end, else the sum
of consecutive waypoint distances from `start_index` to `end_index`. -/
def calcRouteSegmentDistance (dist : DistFn) (wps : List Coord) (startIndex endIndex : ℕ) : ℚ :=
  if startIndex ≥ endIndex ∨ endIndex ≥ wps.length then 0
  else
    ((List.range' startIndex (endIndex - startIndex)).map
      (fun i =>
        if i + 1 < wps.length then dist (wps.getD i (0, 0)) (wps.getD (i + 1) (0, 0)) else 0)).sum

/-- `RouteConnector._find_direct_routes`, restricted to one route of the
catalogue (the loop body): the produced option, if any. -/
def directOptionForRoute (dist : DistFn) (geo : Geo) (maxD : ℚ) (cur dest : Coord)
    (route : RouteRec) : Option JourneyOption :=
  if route.waypoints.length < 2 then none
  else
    match findNearestPointOnRoute dist route.waypoints cur with
    | none => none
    | some bp =>
      match findNearestPointOnRoute dist route.waypoints dest with
      | none => none
      | some ap =>
      if dist cur bp.1 ≤ maxD ∧ dist dest ap.1 ≤ maxD then
        if bp.2 < ap.2 then
          some
            ⟨"direct", 1,
              calcRouteSegmentDistance dist route.waypoints bp.2 ap.2,
              0,
              [⟨route.routeId, route.name,
                ⟨rcGetLocationName geo bp.1.1 bp.1.2, bp.1.1, bp.1.2,
                  round2 (dist cur bp.1)⟩,
                ⟨rcGetLocationName geo ap.1.1 ap.1.2, ap.1.1, ap.1.2,
                  round2 (dist dest ap.1)⟩,
                round2 (calcRouteSegmentDistance dist route.waypoints bp.2 ap.2)⟩]⟩
        else none
      else none

/-- `RouteConnector._find_direct_routes` over the whole catalogue. -/
def findDirectRoutes (dist : DistFn) (geo : Geo) (maxD : ℚ) (cur dest : Coord)
    (allRoutes : List RouteRec) : List JourneyOption :=
  allRoutes.filterMap (directOptionForRoute dist geo maxD cur dest)

/-- A transfer point between two polylines, with the indices where the
proximity match occurred. -/
structure TransferPoint where
  lat : ℚ
  lng : ℚ
  route1Index : ℕ
  route2Index : ℕ
  transferWalkKm : ℚ
deriving DecidableEq

/-- Inner loop of `_find_transfer_point`: scan route2's waypoints against
a fixed `wp1` and accept the first within `maxD`, returning the midpoint. -/
def findTransferInner (dist : DistFn) (maxD : ℚ) (wp1 : Coord) (i : ℕ) :
    List Coord → ℕ → Option TransferPoint
  | [], _ => none
  | wp2 :: rest, j =>
    if dist wp1 wp2 ≤ maxD then
      some ⟨(wp1.1 + wp2.1) / 2, (wp1.2 + wp2.2) / 2, i, j, dist wp1 wp2⟩
    else findTransferInner dist maxD wp1 i rest (j + 1)

/-- Outer loop of `_find_transfer_point` over route1's waypoints. -/
def findTransferOuter (dist : DistFn) (maxD : ℚ) (wps2 : List Coord) :
    List Coord → ℕ → Option TransferPoint
  | [], _ => none
  | wp1 :: rest, i =>
    match findTransferInner dist maxD wp1 i wps2 0 with
    | some tp => some tp
    | none => findTransferOuter dist maxD wps2 rest (i + 1)

/-- `RouteConnector._find_transfer_point`. -/
def findTransferPoint (dist : DistFn) (wps1 wps2 : List Coord) (maxD : ℚ) :
    Option TransferPoint :=
  findTransferOuter dist maxD wps2 wps1 0

/-- `RouteConnector._find_transfer_routes`, restricted to one ordered pair
of distinct routes (the two loop bodies): the produced option, if any. -/
def transferOptionForPair (dist : DistFn) (geo : Geo) (maxD : ℚ) (cur dest : Coord)
    (route1 route2 : RouteRec) : Option JourneyOption :=
  if route1.waypoints = [] then none
  else
    match findNearestPointOnRoute dist route1.waypoints cur with
    | none => none
    | some bp =>
      if dist cur bp.1 > maxD then none
      else if route2.waypoints = [] then none
      else
        match findTransferPoint dist route1.waypoints route2.waypoints maxD with
        | none => none
        | some tp =>
          match findNearestPointOnRoute dist route2.waypoints dest with
          | none => none
          | some ap =>
            if dist dest ap.1 > maxD then none
            else
              some
                ⟨"transfer", 2,
                  round2
                    (calcRouteSegmentDistance dist route1.waypoints bp.2 tp.route1Index +
                      calcRouteSegmentDistance dist route2.waypoints tp.route2Index ap.2),
                  1,
                  [⟨route1.routeId, route1.name,
                    ⟨rcGetLocationName geo bp.1.1 bp.1.2, bp.1.1, bp.1.2,
                      round2 (dist cur bp.1)⟩,
                    ⟨rcGetLocationName geo tp.lat tp.lng, tp.lat, tp.lng, 0⟩,
                    round2
                      (calcRouteSegmentDistance dist route1.waypoints bp.2 tp.route1Index)⟩,
                   ⟨route2.routeId, route2.name,
                    ⟨rcGetLocationName geo tp.lat tp.lng, tp.lat, tp.lng,
                      round2 tp.transferWalkKm⟩,
                    ⟨rcGetLocationName geo ap.1.1 ap.1.2, ap.1.1, ap.1.2,
                      round2 (dist dest ap.1)⟩,
                    round2
                      (calcRouteSegmentDistance dist route2.waypoints tp.route2Index ap.2)⟩]⟩

/-- C9.  If the reverse-geocoding collaborator fails (modelled by
`Except.error`) or returns an empty result list, both place-naming
operations return their formatted coordinate fallback string.  (Both
operations are total functions into `String` by construction: every
exception path of the source is caught, so naming never raises to the
caller.) -/
theorem getLocationName_fails_soft (geo : Geo) (lat lng : ℚ)
    (h : geo lat lng = Except.error () ∨ geo lat lng = Except.ok []) :
    rcGetLocationName geo lat lng = rcCoordString lat lng ∧
      sgGetLocationName geo lat lng = sgCoordString lat lng := by
  unfold rcGetLocationName sgGetLocationName
  rcases h with h | h <;> rw [h]
  · exact ⟨rfl, rfl⟩
  · exact ⟨rfl, rfl⟩

/-- C9 witness: a collaborator that always raises. -/
theorem getLocationName_fails_soft_witness :
    rcGetLocationName (fun _ _ => Except.error ()) 0 0 = rcCoordString 0 0 ∧
      sgGetLocationName (fun _ _ => Except.error ()) 0 0 = sgCoordString 0 0 :=
  getLocationName_fails_soft (fun _ _ => Except.error ()) 0 0 (Or.inl rfl)

/-- The nearest-point scan never returns an index at or past the number
of scanned waypoints. -/
theorem findNearestLoop_idx_lt (dist : DistFn) (p : Coord) :
    ∀ (l : List Coord) (i : ℕ) (best : Option (Coord × ℕ)) (minD : ℚ),
      (∀ pr, best = some pr → pr.2 < i) →
      ∀ pr, findNearestLoop dist p l i best minD = some pr → pr.2 < i + l.length := by
  intro l
  induction l with
  | nil =>
    intro i best minD hbest pr h
    rw [findNearestLoop.eq_def] at h
    simpa using hbest pr h
  | cons wp rest ih =>
    intro i best minD hbest pr h
    cases best with
    | none =>
      rw [show findNearestLoop dist p (wp :: rest) i none minD =
          findNearestLoop dist p rest (i + 1) (some (wp, i)) (dist p wp) from rfl] at h
      have hnew : ∀ pr' : Coord × ℕ, some (wp, i) = some pr' → pr'.2 < i + 1 := by
        intro pr' heq
        have h2 : (wp, i) = pr' := by simpa using heq
        rw [← h2]
        exact Nat.lt_succ_self i
      have := ih (i + 1) (some (wp, i)) (dist p wp) hnew pr h
      simp only [List.length_cons]
      omega
    | some b =>
      rw [show findNearestLoop dist p (wp :: rest) i (some b) minD =
          (if dist p wp < minD then
            findNearestLoop dist p rest (i + 1) (some (wp, i)) (dist p wp)
          else findNearestLoop dist p rest (i + 1) (some b) minD) from rfl] at h
      by_cases hlt : dist p wp < minD
      · rw [if_pos hlt] at h
        have hnew : ∀ pr' : Coord × ℕ, some (wp, i) = some pr' → pr'.2 < i + 1 := by
          intro pr' heq
          have h2 : (wp, i) = pr' := by simpa using heq
          rw [← h2]
          exact Nat.lt_succ_self i
        have := ih (i + 1) (some (wp, i)) (dist p wp) hnew pr h
        simp only [List.length_cons]
        omega
      · rw [if_neg hlt] at h
        have hkeep : ∀ pr' : Coord × ℕ, some b = some pr' → pr'.2 < i + 1 := by
          intro pr' heq
          exact Nat.lt_succ_of_lt (hbest pr' heq)
        have := ih (i + 1) (some b) minD hkeep pr h
        simp only [List.length_cons]
        omega

/-- The nearest point returned by `_find_nearest_point_on_route` carries
an index inside the waypoint list. -/
theorem findNearestPointOnRoute_idx_lt (dist : DistFn) (wps : List Coord) (p : Coord)
    (pr : Coord × ℕ) (h : findNearestPointOnRoute dist wps p = some pr) :
    pr.2 < wps.length := by
  have := findNearestLoop_idx_lt dist p wps 0 none 0 (by intro pr' heq; cases heq) pr h
  simpa using this

/-- C5.  A direct journey option is produced for a route if and only if
the distance from the current location to its nearest waypoint and from
the destination to its nearest waypoint are both at most the radius, and
the boarding waypoint's index is strictly less than the alighting
waypoint's index.  In particular, no option is produced when
`boarding.index ≥ alighting.index`. -/
theorem directOption_iff (dist : DistFn) (geo : Geo) (maxD : ℚ) (cur dest : Coord)
    (route : RouteRec) :
    (directOptionForRoute dist geo maxD cur dest route).isSome = true ↔
      ∃ bp ap, findNearestPointOnRoute dist route.waypoints cur = some bp ∧
        findNearestPointOnRoute dist route.waypoints dest = some ap ∧
        dist cur bp.1 ≤ maxD ∧ dist dest ap.1 ≤ maxD ∧ bp.2 < ap.2 := by
  unfold directOptionForRoute
  by_cases hlen : route.waypoints.length < 2
  · rw [if_pos hlen]
    constructor
    · intro h; exact absurd h (by decide)
    · rintro ⟨bp, ap, hbp, hap, _, _, hlt⟩
      have hb := findNearestPointOnRoute_idx_lt dist route.waypoints cur bp hbp
      have ha := findNearestPointOnRoute_idx_lt dist route.waypoints dest ap hap
      omega
  · rw [if_neg hlen]
    cases hbp : findNearestPointOnRoute dist route.waypoints cur with
    | none =>
      simp only [hbp]
      constructor
      · intro h; exact absurd h (by decide)
      · rintro ⟨bp, ap, hbp', hap', _⟩
        exact Option.noConfusion hbp'
    | some bp0 =>
      simp only [hbp]
      cases hap : findNearestPointOnRoute dist route.waypoints dest with
      | none =>
        simp only [hap]
        constructor
        · intro h; exact absurd h (by decide)
        · rintro ⟨bp, ap, hbp', hap', _⟩
          exact Option.noConfusion hap'
      | some ap0 =>
        simp only [hap]
        by_cases hcond : dist cur bp0.1 ≤ maxD ∧ dist dest ap0.1 ≤ maxD
        · rw [if_pos hcond]
          by_cases hlt : bp0.2 < ap0.2
          · rw [if_pos hlt]
            simp only [Option.isSome_some, true_iff]
            exact ⟨bp0, ap0, rfl, rfl, hcond.1, hcond.2, hlt⟩
          · rw [if_neg hlt]
            constructor
            · intro h; exact absurd h (by decide)
            · rintro ⟨bp, ap, hbp', hap', _, _, hlt'⟩
              obtain rfl : bp0 = bp := Option.some.inj hbp'
              obtain rfl : ap0 = ap := Option.some.inj hap'
              exact absurd hlt' hlt
        · rw [if_neg hcond]
          constructor
          · intro h; exact absurd h (by decide)
          · rintro ⟨bp, ap, hbp', hap', h1, h2, _⟩
            obtain rfl : bp0 = bp := Option.some.inj hbp'
            obtain rfl : ap0 = ap := Option.some.inj hap'
            exact absurd ⟨h1, h2⟩ hcond

/-- A concrete straight-line route used by witnesses. -/
def witnessRoute1 : RouteRec :=
  ⟨"R1", "Route 1", [((0:ℚ), (0:ℚ)), ((10:ℚ), (0:ℚ))]⟩

/-- The taxicab distance on exact rationals: a concrete executable
stand-in for the distance parameter in witnesses (it is nonnegative and
satisfies the triangle inequality, like the haversine distance). -/
def taxiDist : DistFn := fun p q => |p.1 - q.1| + |p.2 - q.2|

/-- A collaborator that always raises, used by witnesses. -/
def geoFail : Geo := fun _ _ => Except.error ()

/-- C5 witness: on `witnessRoute1` with the current location at one end
and the destination at the other, a direct option is produced. -/
theorem directOption_iff_witness :
    (directOptionForRoute taxiDist geoFail 2 ((0:ℚ), (0:ℚ)) ((10:ℚ), (0:ℚ))
        witnessRoute1).isSome = true :=
  (directOption_iff taxiDist geoFail 2 ((0:ℚ), (0:ℚ)) ((10:ℚ), (0:ℚ)) witnessRoute1).mpr
    ⟨(((0:ℚ), (0:ℚ)), 0), (((10:ℚ), (0:ℚ)), 1), by decide, by decide, by decide, by decide,
      by decide⟩

/-- Waypoints paired with their indices, starting at `off`. -/
def idxFrom (off : ℕ) : List Coord → List (ℕ × Coord)
  | [] => []
  | w :: r => (off, w) :: idxFrom (off + 1) r

/-- All waypoint pairs of two polylines, in the nested scan order of
`_find_transfer_point` (outer loop over the first polyline, inner loop
over the second). -/
def scanPairs (wps1 wps2 : List Coord) : List ((ℕ × Coord) × (ℕ × Coord)) :=
  (idxFrom 0 wps1).flatMap (fun iw => (idxFrom 0 wps2).map (fun jw => (iw, jw)))

/-- The transfer point built from a matched waypoint pair: the arithmetic
midpoint, the two match indices, and the pairwise distance as the
transfer walk. -/
def mkTransfer (dist : DistFn) (pr : (ℕ × Coord) × (ℕ × Coord)) : TransferPoint :=
  ⟨(pr.1.2.1 + pr.2.2.1) / 2, (pr.1.2.2 + pr.2.2.2) / 2, pr.1.1, pr.2.1,
    dist pr.1.2 pr.2.2⟩

/-- `find?` over an append, by cases on the first block. -/
theorem find?_append_cases {α : Type} (p : α → Bool) :
    ∀ (l1 l2 : List α), (l1 ++ l2).find? p =
      match l1.find? p with
      | some a => some a
      | none => l2.find? p := by
  intro l1 l2
  induction l1 with
  | nil => simp
  | cons a t ih =>
    by_cases h : p a
    · rw [List.cons_append, List.find?_cons_of_pos _ h, List.find?_cons_of_pos _ h]
    · rw [List.cons_append, List.find?_cons_of_neg _ h, List.find?_cons_of_neg _ h, ih]

/-- The inner loop of `_find_transfer_point` is a first-match search over
route2's indexed waypoints. -/
theorem findTransferInner_eq (dist : DistFn) (maxD : ℚ) (wp1 : Coord) (i : ℕ) :
    ∀ (l : List Coord) (j : ℕ),
      findTransferInner dist maxD wp1 i l j =
        (((idxFrom j l).map (fun jw => ((i, wp1), jw))).find?
            (fun pr => decide (dist pr.1.2 pr.2.2 ≤ maxD))).map (mkTransfer dist) := by
  intro l
  induction l with
  | nil => intro j; rfl
  | cons wp2 rest ih =>
    intro j
    rw [findTransferInner, idxFrom, List.map_cons]
    by_cases h : dist wp1 wp2 ≤ maxD
    · rw [if_pos h, List.find?_cons_of_pos _ (by simpa using h)]
      rfl
    · rw [if_neg h, List.find?_cons_of_neg _ (by simpa using h), ih]

/-- The outer loop of `_find_transfer_point` is a first-match search over
the nested scan order. -/
theorem findTransferOuter_eq (dist : DistFn) (maxD : ℚ) (wps2 : List Coord) :
    ∀ (l : List Coord) (i : ℕ),
      findTransferOuter dist maxD wps2 l i =
        (((idxFrom i l).flatMap
            (fun iw => (idxFrom 0 wps2).map (fun jw => (iw, jw)))).find?
            (fun pr => decide (dist pr.1.2 pr.2.2 ≤ maxD))).map (mkTransfer dist) := by
  intro l
  induction l with
  | nil => intro i; rfl
  | cons wp1 rest ih =>
    intro i
    rw [findTransferOuter, idxFrom, List.flatMap_cons, find?_append_cases,
      findTransferInner_eq dist maxD wp1 i wps2 0]
    cases hfi : ((idxFrom 0 wps2).map (fun jw => ((i, wp1), jw))).find?
        (fun pr => decide (dist pr.1.2 pr.2.2 ≤ maxD)) with
    | some pr => rfl
    | none => exact ih (i + 1)

/-- C6.  The transfer point chosen between two polylines is the **first**
waypoint pair in nested scan order whose pairwise distance is at most the
radius (a greedy first match, not a globally closest pair), and the
returned transfer coordinate is the arithmetic midpoint of the two
matched waypoints. -/
theorem findTransferPoint_first_match (dist : DistFn) (wps1 wps2 : List Coord) (maxD : ℚ) :
    findTransferPoint dist wps1 wps2 maxD =
      ((scanPairs wps1 wps2).find?
          (fun pr => decide (dist pr.1.2 pr.2.2 ≤ maxD))).map (mkTransfer dist) :=
  findTransferOuter_eq dist maxD wps2 wps1 0

/-- `_calculate_route_segment_distance` returns `0.0` on a degenerate
index range. -/
theorem calcRouteSegmentDistance_zero (dist : DistFn) (wps : List Coord) (s e : ℕ)
    (h : e ≤ s ∨ wps.length ≤ e) : calcRouteSegmentDistance dist wps s e = 0 := by
  unfold calcRouteSegmentDistance
  rw [if_pos h]

/-- Rounding zero is zero. -/
theorem round2_zero : round2 0 = 0 := by
  unfold round2 pyRound
  norm_num

/-- With an empty second polyline, no transfer point is ever found. -/
theorem findTransferPoint_empty_inner (dist : DistFn) (maxD : ℚ) :
    ∀ (l : List Coord) (i : ℕ), findTransferOuter dist maxD [] l i = none := by
  intro l
  induction l with
  | nil => intro i; rfl
  | cons wp1 rest ih =>
    intro i
    rw [findTransferOuter]
    exact ih (i + 1)

/-- C10.  One-transfer journeys enforce no index ordering: (a) the
segment-distance helper returns `0.0` whenever `start_index ≥ end_index`
or `end_index` is past the end of the waypoint list; (b) a transfer
option is produced exactly when the three distance checks pass — the
relative order of boarding/transfer/alighting indices is never tested;
and (c) when the transfer point's index on route1 is at or before the
boarding index (resp. the alighting index is at or before the transfer
index on route2), the corresponding leg's reported distance is exactly
`0.0`. -/
theorem transfer_no_index_ordering (dist : DistFn) (geo : Geo) (maxD : ℚ) (cur dest : Coord)
    (r1 r2 : RouteRec) :
    (∀ (wps : List Coord) (s e : ℕ), e ≤ s ∨ wps.length ≤ e →
      calcRouteSegmentDistance dist wps s e = 0) ∧
    ((transferOptionForPair dist geo maxD cur dest r1 r2).isSome = true ↔
      ∃ bp tp ap, findNearestPointOnRoute dist r1.waypoints cur = some bp ∧
        dist cur bp.1 ≤ maxD ∧
        findTransferPoint dist r1.waypoints r2.waypoints maxD = some tp ∧
        findNearestPointOnRoute dist r2.waypoints dest = some ap ∧
        dist dest ap.1 ≤ maxD) ∧
    (∀ opt bp tp ap,
      transferOptionForPair dist geo maxD cur dest r1 r2 = some opt →
      findNearestPointOnRoute dist r1.waypoints cur = some bp →
      findTransferPoint dist r1.waypoints r2.waypoints maxD = some tp →
      findNearestPointOnRoute dist r2.waypoints dest = some ap →
      (tp.route1Index ≤ bp.2 → (opt.legs[0]?).map Leg.distanceKm = some 0) ∧
      (ap.2 ≤ tp.route2Index → (opt.legs[1]?).map Leg.distanceKm = some 0)) := by
  refine ⟨fun wps s e h => calcRouteSegmentDistance_zero dist wps s e h, ?_, ?_⟩
  · unfold transferOptionForPair
    by_cases h1 : r1.waypoints = []
    · rw [if_pos h1]
      constructor
      · intro h; exact absurd h (by decide)
      · rintro ⟨bp, tp, ap, hbp, _⟩
        rw [h1] at hbp
        exact Option.noConfusion hbp
    · rw [if_neg h1]
      cases hbp : findNearestPointOnRoute dist r1.waypoints cur with
      | none =>
        simp only [hbp]
        constructor
        · intro h; exact absurd h (by decide)
        · rintro ⟨bp, tp, ap, hbp', _⟩
          exact Option.noConfusion hbp'
      | some bp0 =>
        simp only [hbp]
        by_cases h2 : dist cur bp0.1 > maxD
        · rw [if_pos h2]
          constructor
          · intro h; exact absurd h (by decide)
          · rintro ⟨bp, tp, ap, hbp', hble, _⟩
            obtain rfl : bp0 = bp := Option.some.inj hbp'
            exact absurd hble (not_le.mpr h2)
        · rw [if_neg h2]
          by_cases h3 : r2.waypoints = []
          · rw [if_pos h3]
            constructor
            · intro h; exact absurd h (by decide)
            · rintro ⟨bp, tp, ap, _, _, htp', _⟩
              rw [show findTransferPoint dist r1.waypoints r2.waypoints maxD =
                  findTransferOuter dist maxD r2.waypoints r1.waypoints 0 from rfl, h3,
                findTransferPoint_empty_inner dist maxD r1.waypoints 0] at htp'
              exact Option.noConfusion htp'
          · rw [if_neg h3]
            cases htp : findTransferPoint dist r1.waypoints r2.waypoints maxD with
            | none =>
              simp only [htp]
              constructor
              · intro h; exact absurd h (by decide)
              · rintro ⟨bp, tp, ap, _, _, htp', _⟩
                exact Option.noConfusion htp'
            | some tp0 =>
              simp only [htp]
              cases hap : findNearestPointOnRoute dist r2.waypoints dest with
              | none =>
                simp only [hap]
                constructor
                · intro h; exact absurd h (by decide)
                · rintro ⟨bp, tp, ap, _, _, _, hap', _⟩
                  exact Option.noConfusion hap'
              | some ap0 =>
                simp only [hap]
                by_cases h4 : dist dest ap0.1 > maxD
                · rw [if_pos h4]
                  constructor
                  · intro h; exact absurd h (by decide)
                  · rintro ⟨bp, tp, ap, hbp', hble, htp', hap', haple⟩
                    obtain rfl : ap0 = ap := Option.some.inj hap'
                    exact absurd haple (not_le.mpr h4)
                · rw [if_neg h4]
                  simp only [Option.isSome_some, true_iff]
                  exact ⟨bp0, tp0, ap0, rfl, not_lt.mp h2, rfl, rfl, not_lt.mp h4⟩
  · intro opt bp tp ap hopt hbp htp hap
    unfold transferOptionForPair at hopt
    by_cases h1 : r1.waypoints = []
    · rw [if_pos h1] at hopt
      exact Option.noConfusion hopt
    · rw [if_neg h1] at hopt
      simp only [hbp] at hopt
      by_cases h2 : dist cur bp.1 > maxD
      · rw [if_pos h2] at hopt
        exact Option.noConfusion hopt
      · rw [if_neg h2] at hopt
        by_cases h3 : r2.waypoints = []
        · rw [if_pos h3] at hopt
          exact Option.noConfusion hopt
        · rw [if_neg h3] at hopt
          simp only [htp, hap] at hopt
          by_cases h4 : dist dest ap.1 > maxD
          · rw [if_pos h4] at hopt
            exact Option.noConfusion hopt
          · rw [if_neg h4] at hopt
            obtain rfl := (Option.some.inj hopt).symm
            constructor
            · intro hle
              show some (round2 (calcRouteSegmentDistance dist r1.waypoints bp.2 tp.route1Index)) =
                some 0
              rw [calcRouteSegmentDistance_zero dist r1.waypoints bp.2 tp.route1Index
                (Or.inl hle), round2_zero]
            · intro hle
              show some (round2 (calcRouteSegmentDistance dist r2.waypoints tp.route2Index ap.2)) =
                some 0
              rw [calcRouteSegmentDistance_zero dist r2.waypoints tp.route2Index ap.2
                (Or.inl hle), round2_zero]

/-- A second concrete route used by the transfer witness: its first
waypoint is within radius of `witnessRoute1`'s first waypoint. -/
def witnessRoute2 : RouteRec :=
  ⟨"R2", "Route 2", [((0:ℚ), (1:ℚ)), ((20:ℚ), (20:ℚ))]⟩

/-- C10 witness: riding `witnessRoute1` from near its last waypoint and
transferring at its first waypoint (transfer index 0 ≤ boarding index 1),
an option is still produced and its first leg's reported distance is
exactly `0`. -/
theorem transfer_no_index_ordering_witness :
    (Option.map (fun o => (o.legs[0]?).map Leg.distanceKm)
        (transferOptionForPair taxiDist geoFail 2 ((10:ℚ), (0:ℚ)) ((20:ℚ), (20:ℚ))
          witnessRoute1 witnessRoute2)) = some (some 0) := by
  cases hopt : transferOptionForPair taxiDist geoFail 2 ((10:ℚ), (0:ℚ)) ((20:ℚ), (20:ℚ))
      witnessRoute1 witnessRoute2 with
  | none =>
    have hiff := (transfer_no_index_ordering taxiDist geoFail 2 ((10:ℚ), (0:ℚ))
      ((20:ℚ), (20:ℚ)) witnessRoute1 witnessRoute2).2.1
    have hsome := hiff.mpr
      ⟨(((10:ℚ), (0:ℚ)), 1), ⟨0, 1/2, 0, 0, 1⟩, (((20:ℚ), (20:ℚ)), 1),
        by decide, by decide, by decide, by decide, by decide⟩
    rw [hopt] at hsome
    exact absurd hsome (by decide)
  | some opt =>
    have h3 := (transfer_no_index_ordering taxiDist geoFail 2 ((10:ℚ), (0:ℚ))
      ((20:ℚ), (20:ℚ)) witnessRoute1 witnessRoute2).2.2 opt
      (((10:ℚ), (0:ℚ)), 1) ⟨0, 1/2, 0, 0, 1⟩ (((20:ℚ), (20:ℚ)), 1)
      hopt (by decide) (by decide) (by decide)
    exact congrArg some (h3.1 (by decide))

/-! ## StopTimingGenerator (`app/utils/schedule_generator.py`)

Clock values are modelled as minutes: an "HH:MM" string is `60*HH + MM`
(e.g. 06:00 ↦ 360, 08:00 ↦ 480); `datetime` arithmetic within the day is
integer arithmetic on minutes.  `generate_intermediate_stops` can raise
`ZeroDivisionError` (total polyline distance zero with at least one
sampled index `> 0`), so its model returns `Option`, with `none` for the
raised error. -/

/-- An intermediate stop record: `name`, coordinates, `sequence`,
`distance_from_start_km` (already rounded to two decimals) and
`estimated_time_from_start_min`. -/
structure IStop where
  name : String
  lat : ℚ
  lng : ℚ
  sequence : ℕ
  distKm : ℚ
  etaMin : ℤ
deriving DecidableEq

/-- `_total_route_distance` as the source writes it: an index loop,
`for i in range(1, len(waypoints)): total += d(w[i-1], w[i])`.
`distUpTo dist wps n` is the partial sum over `i ∈ [1, n]` (guarded by the
index bound). -/
def distUpTo (dist : DistFn) (wps : List Coord) : ℕ → ℚ
  | 0 => 0
  | n + 1 =>
    distUpTo dist wps n +
      (if n + 1 < wps.length then
        dist (wps.getD n ((0 : ℚ), (0 : ℚ))) (wps.getD (n + 1) ((0 : ℚ), (0 : ℚ)))
      else 0)

/-- `ScheduleGenerator._total_route_distance`. -/
def totalRouteDistance (dist : DistFn) (wps : List Coord) : ℚ :=
  distUpTo dist wps (wps.length - 1)

/-- The sampling loop of `generate_intermediate_stops`
(`for i in range(0, total_points, interval)` with its early `break`);
state: remaining `fuel` (never exhausted for `interval ≥ 1` under the
fuel chosen by the wrapper), current sample index `i`, cumulative
distance and time, accumulated stops in reverse order. -/
def genStopsLoop (dist : DistFn) (nameOf : ℚ → ℚ → String) (wps : List Coord) (T : ℤ)
    (numStops interval : ℕ) : ℕ → ℕ → ℚ → ℤ → List IStop → Option (List IStop)
  | 0, _, _, _, acc => some acc.reverse
  | fuel + 1, i, cumD, cumT, acc =>
    if i < wps.length then
      if 0 < i then
        if totalRouteDistance dist wps = 0 then none
        else
          if numStops ≤ acc.length + 1 then
            some ((⟨nameOf (wps.getD i ((0:ℚ), (0:ℚ))).1 (wps.getD i ((0:ℚ), (0:ℚ))).2,
              (wps.getD i ((0:ℚ), (0:ℚ))).1, (wps.getD i ((0:ℚ), (0:ℚ))).2, acc.length,
              round2 (cumD + dist (wps.getD (if interval ≤ i then i - interval else 0)
                ((0:ℚ), (0:ℚ))) (wps.getD i ((0:ℚ), (0:ℚ)))),
              pyInt (((cumD + dist (wps.getD (if interval ≤ i then i - interval else 0)
                ((0:ℚ), (0:ℚ))) (wps.getD i ((0:ℚ), (0:ℚ)))) /
                  totalRouteDistance dist wps) * (T : ℚ))⟩ : IStop) :: acc).reverse
          else
            genStopsLoop dist nameOf wps T numStops interval fuel (i + interval)
              (cumD + dist (wps.getD (if interval ≤ i then i - interval else 0)
                ((0:ℚ), (0:ℚ))) (wps.getD i ((0:ℚ), (0:ℚ))))
              (pyInt (((cumD + dist (wps.getD (if interval ≤ i then i - interval else 0)
                ((0:ℚ), (0:ℚ))) (wps.getD i ((0:ℚ), (0:ℚ)))) /
                  totalRouteDistance dist wps) * (T : ℚ)))
              ((⟨nameOf (wps.getD i ((0:ℚ), (0:ℚ))).1 (wps.getD i ((0:ℚ), (0:ℚ))).2,
                (wps.getD i ((0:ℚ), (0:ℚ))).1, (wps.getD i ((0:ℚ), (0:ℚ))).2, acc.length,
                round2 (cumD + dist (wps.getD (if interval ≤ i then i - interval else 0)
                  ((0:ℚ), (0:ℚ))) (wps.getD i ((0:ℚ), (0:ℚ)))),
                pyInt (((cumD + dist (wps.getD (if interval ≤ i then i - interval else 0)
                  ((0:ℚ), (0:ℚ))) (wps.getD i ((0:ℚ), (0:ℚ)))) /
                    totalRouteDistance dist wps) * (T : ℚ))⟩ : IStop) :: acc)
      else
        if numStops ≤ acc.length + 1 then
          some ((⟨nameOf (wps.getD i ((0:ℚ), (0:ℚ))).1 (wps.getD i ((0:ℚ), (0:ℚ))).2,
            (wps.getD i ((0:ℚ), (0:ℚ))).1, (wps.getD i ((0:ℚ), (0:ℚ))).2, acc.length,
            round2 cumD, cumT⟩ : IStop) :: acc).reverse
        else
          genStopsLoop dist nameOf wps T numStops interval fuel (i + interval) cumD cumT
            ((⟨nameOf (wps.getD i ((0:ℚ), (0:ℚ))).1 (wps.getD i ((0:ℚ), (0:ℚ))).2,
              (wps.getD i ((0:ℚ), (0:ℚ))).1, (wps.getD i ((0:ℚ), (0:ℚ))).2, acc.length,
              round2 cumD, cumT⟩ : IStop) :: acc)
    else some acc.reverse

/-- `ScheduleGenerator.generate_intermediate_stops`: `[]` for polylines
with fewer than two waypoints; otherwise the sampled stops followed by
the final destination stop, whose ETA is forced to exactly
`total_duration_min`; `none` models the `ZeroDivisionError` raised on a
zero-total-distance polyline once a sampled index `> 0` is processed. -/
def generateIntermediateStops (dist : DistFn) (nameOf : ℚ → ℚ → String)
    (wps : List Coord) (T : ℤ) (numStops : ℕ) : Option (List IStop) :=
  if wps.length < 2 then some []
  else
    match genStopsLoop dist nameOf wps T numStops (max 1 (wps.length / (numStops + 1)))
        (wps.length + 1) 0 0 0 [] with
    | none => none
    | some stops =>
      match wps.getLast? with
      | none => some stops
      | some wlast =>
        some (stops ++ [⟨nameOf wlast.1 wlast.2, wlast.1, wlast.2, stops.length,
          round2 (totalRouteDistance dist wps), T⟩])

/-- One row of `generate_stop_timings`. -/
structure StopTiming where
  stopName : String
  stopLat : ℚ
  stopLng : ℚ
  arrivalMin : ℤ
  departureMin : ℤ
deriving DecidableEq

/-- `ScheduleGenerator.generate_stop_timings`: for each stop,
`arrival = start + eta`, `departure = arrival + dwell`. -/
def generateStopTimings (stops : List IStop) (startMin : ℤ) (dwellMin : ℤ) :
    List StopTiming :=
  stops.map (fun s =>
    ⟨s.name, s.lat, s.lng, startMin + s.etaMin, startMin + s.etaMin + dwellMin⟩)

/-- One bus's schedule record. -/
structure BusSchedule where
  busInstanceId : String
  deploymentSequence : ℕ
  scheduleOffsetMin : ℕ
  departureTimes : List ℕ
  stopTimings : List StopTiming
  totalTrips : ℕ
deriving DecidableEq

/-- The departure-time while-loop
(`while current_time <= end_dt: append; current_time += step`), with
explicit fuel; the wrapper's fuel suffices for every `step ≥ 1`
(for `step = 0` the source loops forever). -/
def busDeparturesAux (step endT : ℕ) : ℕ → ℕ → List ℕ
  | 0, _ => []
  | fuel + 1, cur => if cur ≤ endT then cur :: busDeparturesAux step endT fuel (cur + step) else []

/-- The departure times of one bus: from `cur`, stepping by `step`, while
not exceeding `endT`. -/
def busDepartures (step endT cur : ℕ) : List ℕ :=
  busDeparturesAux step endT (endT + 1 - cur) cur

/-- The number of departures the while-loop generates (for `step ≥ 1`). -/
def tripCount (cur step endT : ℕ) : ℕ :=
  if cur ≤ endT then (endT - cur) / step + 1 else 0

/-- `ScheduleGenerator.generate_multi_bus_schedules`: bus `b` (0-indexed)
starts at `startT + b·F` (`offset_min = frequency_min`), departs every
`F·N` minutes while within the window, and its stop-timing table is
computed once from its first departure (dwell defaulting to 2 minutes). -/
def generateMultiBusSchedules (routeId : String) (numBuses freq : ℕ) (startT endT : ℕ)
    (stops : List IStop) : List BusSchedule :=
  (List.range numBuses).map (fun b =>
    ⟨routeId ++ "-B" ++ toString (b + 1), b + 1, b * freq,
      busDepartures (freq * numBuses) endT (startT + b * freq),
      generateStopTimings stops ((startT + b * freq : ℕ) : ℤ) 2,
      (busDepartures (freq * numBuses) endT (startT + b * freq)).length⟩)

/-- Prepending the start of an arithmetic progression. -/
theorem cons_map_range_arith (c s q : ℕ) :
    c :: (List.range q).map (fun j => c + s + j * s) =
      (List.range (q + 1)).map (fun j => c + j * s) := by
  rw [List.range_succ_eq_map, List.map_cons, List.map_map]
  congr 1
  · simp
  · apply List.map_congr_left
    intro j _
    simp only [Function.comp_apply, Nat.succ_eq_add_one]
    ring

/-- The departure while-loop produces exactly the arithmetic progression
`cur, cur + step, …` of all values `≤ endT`, provided `step ≥ 1` and the
fuel covers the window. -/
theorem busDeparturesAux_eq (step endT : ℕ) (hstep : 1 ≤ step) :
    ∀ (fuel cur : ℕ), endT + 1 - cur ≤ fuel →
      busDeparturesAux step endT fuel cur =
        (List.range (tripCount cur step endT)).map (fun j => cur + j * step) := by
  intro fuel
  induction fuel with
  | zero =>
    intro cur h
    rw [busDeparturesAux]
    unfold tripCount
    rw [if_neg (by omega)]
    rfl
  | succ n ih =>
    intro cur h
    rw [busDeparturesAux]
    by_cases hc : cur ≤ endT
    · rw [if_pos hc, ih (cur + step) (by omega)]
      unfold tripCount
      rw [if_pos hc]
      by_cases hc2 : cur + step ≤ endT
      · rw [if_pos hc2]
        have hdiv : (endT - cur) / step = (endT - (cur + step)) / step + 1 := by
          have hsplit : endT - cur = (endT - (cur + step)) + step := by omega
          rw [hsplit, Nat.add_div_right _ (by omega)]
        rw [hdiv]
        exact cons_map_range_arith cur step ((endT - (cur + step)) / step + 1)
      · rw [if_neg hc2]
        have hz : (endT - cur) / step = 0 := Nat.div_eq_of_lt (by omega)
        rw [hz]
        exact cons_map_range_arith cur step 0
    · rw [if_neg hc]
      unfold tripCount
      rw [if_neg hc]
      rfl

/-- C4.  In `generate_multi_bus_schedules` with `N` buses and frequency
`F` over the window `[startT, endT]` (minutes), bus `i` (0-indexed) is
the schedule record with first departure `startT + i·F`, subsequent
departures spaced exactly `F·N` minutes and generated while they do not
exceed `endT`, and a stop-timing table computed once from the bus's first
departure only.  In particular for `N = 3`, `F = 10`, window 06:00–08:00
(360–480), the offsets are 0, 10, 20 and bus 0 departs at 06:00, 06:30,
07:00, 07:30, 08:00 (360, 390, 420, 450, 480). -/
theorem generateMultiBusSchedules_spec (routeId : String) (N F startT endT : ℕ)
    (stops : List IStop) (i : ℕ) (hF : 1 ≤ F) (hN : 1 ≤ N) (hi : i < N) :
    (generateMultiBusSchedules routeId N F startT endT stops)[i]? =
      some ⟨routeId ++ "-B" ++ toString (i + 1), i + 1, i * F,
        (List.range (tripCount (startT + i * F) (F * N) endT)).map
          (fun j => startT + i * F + j * (F * N)),
        generateStopTimings stops ((startT + i * F : ℕ) : ℤ) 2,
        tripCount (startT + i * F) (F * N) endT⟩ ∧
    (generateMultiBusSchedules "R" 3 10 360 480 []).map BusSchedule.scheduleOffsetMin =
      [0, 10, 20] ∧
    ((generateMultiBusSchedules "R" 3 10 360 480 [])[0]?).map BusSchedule.departureTimes =
      some [360, 390, 420, 450, 480] := by
  refine ⟨?_, by decide, by decide⟩
  have hbd : busDepartures (F * N) endT (startT + i * F) =
      (List.range (tripCount (startT + i * F) (F * N) endT)).map
        (fun j => startT + i * F + j * (F * N)) := by
    unfold busDepartures
    exact busDeparturesAux_eq (F * N) endT (Nat.one_le_iff_ne_zero.mpr
      (Nat.mul_ne_zero (by omega) (by omega))) _ _ (le_refl _)
  unfold generateMultiBusSchedules
  rw [List.getElem?_map, List.getElem?_range hi]
  rw [Option.map_some', hbd, List.length_map, List.length_range]

/-- C4 witness: the spec applied at `N = 3`, `F = 10`, window
06:00–08:00 (360–480 minutes), bus 0. -/
theorem generateMultiBusSchedules_spec_witness :
    (generateMultiBusSchedules "R" 3 10 360 480 []).map BusSchedule.scheduleOffsetMin =
      [0, 10, 20] ∧
    ((generateMultiBusSchedules "R" 3 10 360 480 [])[0]?).map BusSchedule.departureTimes =
      some [360, 390, 420, 450, 480] :=
  ⟨(generateMultiBusSchedules_spec "R" 3 10 360 480 [] 0 (by decide) (by decide)
      (by decide)).2.1,
   (generateMultiBusSchedules_spec "R" 3 10 360 480 [] 0 (by decide) (by decide)
      (by decide)).2.2⟩

/-- Partial route distances are nonnegative (for a nonnegative distance
function). -/
theorem distUpTo_nonneg (dist : DistFn) (wps : List Coord)
    (hnn : ∀ p q, 0 ≤ dist p q) : ∀ n, 0 ≤ distUpTo dist wps n := by
  intro n
  induction n with
  | zero => exact le_refl 0
  | succ m ih =>
    rw [distUpTo]
    by_cases h : m + 1 < wps.length
    · rw [if_pos h]
      have := hnn (wps.getD m ((0 : ℚ), (0 : ℚ))) (wps.getD (m + 1) ((0 : ℚ), (0 : ℚ)))
      linarith
    · rw [if_neg h]
      linarith

/-- Partial route distances are monotone in the index. -/
theorem distUpTo_mono (dist : DistFn) (wps : List Coord)
    (hnn : ∀ p q, 0 ≤ dist p q) {m n : ℕ} (h : m ≤ n) :
    distUpTo dist wps m ≤ distUpTo dist wps n := by
  induction n with
  | zero =>
    obtain rfl : m = 0 := Nat.le_zero.mp h
    exact le_refl _
  | succ k ih =>
    by_cases h' : m ≤ k
    · have hk := ih h'
      rw [distUpTo]
      by_cases hb : k + 1 < wps.length
      · rw [if_pos hb]
        have := hnn (wps.getD k ((0 : ℚ), (0 : ℚ))) (wps.getD (k + 1) ((0 : ℚ), (0 : ℚ)))
        linarith
      · rw [if_neg hb]
        linarith
    · have hm : m = k + 1 := by omega
      rw [hm]

/-- The distance between two sampled waypoints is at most the sum of the
consecutive-waypoint distances between them (iterated triangle
inequality). -/
theorem dist_chunk_le (dist : DistFn) (wps : List Coord)
    (htri : ∀ p q r, dist p r ≤ dist p q + dist q r) :
    ∀ (k a : ℕ), a + k + 1 < wps.length →
      dist (wps.getD a ((0 : ℚ), (0 : ℚ))) (wps.getD (a + k + 1) ((0 : ℚ), (0 : ℚ))) ≤
        distUpTo dist wps (a + k + 1) - distUpTo dist wps a := by
  intro k
  induction k with
  | zero =>
    intro a hb
    have heq : distUpTo dist wps (a + 0 + 1) = distUpTo dist wps a +
        dist (wps.getD a ((0 : ℚ), (0 : ℚ))) (wps.getD (a + 1) ((0 : ℚ), (0 : ℚ))) := by
      rw [show a + 0 + 1 = a + 1 from rfl, distUpTo, if_pos (by omega)]
    rw [show a + 0 + 1 = a + 1 from rfl] at heq ⊢
    rw [heq]
    linarith
  | succ j ih =>
    intro a hb
    have hmid : a + j + 1 < wps.length := by omega
    have h1 := ih a hmid
    have h2 : distUpTo dist wps (a + j + 2) = distUpTo dist wps (a + j + 1) +
        dist (wps.getD (a + j + 1) ((0 : ℚ), (0 : ℚ)))
          (wps.getD (a + j + 2) ((0 : ℚ), (0 : ℚ))) := by
      rw [show a + j + 2 = (a + j + 1) + 1 from by omega, distUpTo,
        if_pos (by omega)]
    have h3 := htri (wps.getD a ((0 : ℚ), (0 : ℚ)))
      (wps.getD (a + j + 1) ((0 : ℚ), (0 : ℚ)))
      (wps.getD (a + (j + 1) + 1) ((0 : ℚ), (0 : ℚ)))
    rw [show a + (j + 1) + 1 = a + j + 2 from by omega] at h3 ⊢
    rw [h2]
    linarith

/-- Pushing a stop whose stored distance is the rounded new cumulative
distance preserves the accumulator invariants. -/
theorem push_stop_ok (nm : String) (la ln : ℚ) (sq : ℕ) (et : ℤ) (acc : List IStop)
    (cumD cumD2 : ℚ) (hmono : cumD ≤ cumD2)
    (hacc : ∀ s ∈ acc, s.distKm ≤ round2 cumD)
    (hsorted : (acc.reverse.map IStop.distKm).Pairwise (· ≤ ·)) :
    (∀ s ∈ (⟨nm, la, ln, sq, round2 cumD2, et⟩ : IStop) :: acc,
        s.distKm ≤ round2 cumD2) ∧
      ((((⟨nm, la, ln, sq, round2 cumD2, et⟩ : IStop) :: acc).reverse.map
          IStop.distKm).Pairwise (· ≤ ·)) := by
  constructor
  · intro s hs
    rcases List.mem_cons.mp hs with rfl | hs'
    · exact le_refl _
    · exact (hacc s hs').trans (pyRound_mono 2 hmono)
  · rw [List.reverse_cons, List.map_append, List.map_singleton, List.pairwise_append]
    refine ⟨hsorted, by simp, ?_⟩
    intro a ha b hb
    rw [List.mem_singleton] at hb
    subst hb
    rw [List.mem_map] at ha
    obtain ⟨s, hs, rfl⟩ := ha
    rw [List.mem_reverse] at hs
    exact (hacc s hs).trans (pyRound_mono 2 hmono)

/-- On returning the reversed accumulator, the invariants give the loop's
postcondition. -/
theorem return_acc_ok (acc : List IStop) (cumD totalD : ℚ) (hct : cumD ≤ totalD)
    (hacc : ∀ s ∈ acc, s.distKm ≤ round2 cumD)
    (hsorted : (acc.reverse.map IStop.distKm).Pairwise (· ≤ ·)) :
    ((acc.reverse.map IStop.distKm).Pairwise (· ≤ ·)) ∧
      (∀ s ∈ acc.reverse, s.distKm ≤ round2 totalD) :=
  ⟨hsorted, fun s hs => (hacc s (List.mem_reverse.mp hs)).trans (pyRound_mono 2 hct)⟩

/-- Soundness of the sampling loop: when it returns a stop list, the
stored `distance_from_start_km` values are non-decreasing and all bounded
by the rounded total route distance. -/
theorem genStopsLoop_sound (dist : DistFn) (nameOf : ℚ → ℚ → String) (wps : List Coord)
    (T : ℤ) (numStops interval : ℕ)
    (hnn : ∀ p q, 0 ≤ dist p q)
    (htri : ∀ p q r, dist p r ≤ dist p q + dist q r)
    (hint : 1 ≤ interval) :
    ∀ (fuel i : ℕ) (cumD : ℚ) (cumT : ℤ) (acc out : List IStop),
      genStopsLoop dist nameOf wps T numStops interval fuel i cumD cumT acc = some out →
      ((i = 0 ∧ cumD = 0) ∨
        (∃ p, p < wps.length ∧ i = p + interval ∧ cumD ≤ distUpTo dist wps p)) →
      (∀ s ∈ acc, s.distKm ≤ round2 cumD) →
      ((acc.reverse.map IStop.distKm).Pairwise (· ≤ ·)) →
      ((out.map IStop.distKm).Pairwise (· ≤ ·)) ∧
        (∀ s ∈ out, s.distKm ≤ round2 (totalRouteDistance dist wps)) := by
  have htot : ∀ (i' : ℕ) (cumD' : ℚ),
      ((i' = 0 ∧ cumD' = 0) ∨
        (∃ p, p < wps.length ∧ i' = p + interval ∧ cumD' ≤ distUpTo dist wps p)) →
      cumD' ≤ totalRouteDistance dist wps := by
    rintro i' cumD' (⟨_, rfl⟩ | ⟨p, hp, _, hle⟩)
    · exact distUpTo_nonneg dist wps hnn _
    · exact hle.trans (distUpTo_mono dist wps hnn (by omega))
  intro fuel
  induction fuel with
  | zero =>
    intro i cumD cumT acc out hout hstate hacc hsorted
    rw [genStopsLoop] at hout
    obtain rfl := (Option.some.inj hout).symm
    exact return_acc_ok acc cumD _ (htot i cumD hstate) hacc hsorted
  | succ n ih =>
    intro i cumD cumT acc out hout hstate hacc hsorted
    rw [genStopsLoop] at hout
    by_cases hi : i < wps.length
    · rw [if_pos hi] at hout
      by_cases hpos : 0 < i
      · rw [if_pos hpos] at hout
        -- the state invariant must be the sampled-index case
        rcases hstate with ⟨rfl, _⟩ | ⟨p, hp, hip, hle⟩
        · exact absurd hpos (by omega)
        by_cases hz : totalRouteDistance dist wps = 0
        · rw [if_pos hz] at hout
          exact Option.noConfusion hout
        · rw [if_neg hz] at hout
          have hprev : (if interval ≤ i then i - interval else 0) = p := by
            rw [if_pos (by omega)]
            omega
          rw [hprev] at hout
          have hchunk : dist (wps.getD p ((0 : ℚ), (0 : ℚ)))
              (wps.getD i ((0 : ℚ), (0 : ℚ))) ≤
                distUpTo dist wps i - distUpTo dist wps p := by
            obtain ⟨k, hk⟩ : ∃ k, interval = k + 1 := ⟨interval - 1, by omega⟩
            have := dist_chunk_le dist wps htri k p (by omega)
            rw [show p + k + 1 = i from by omega] at this
            exact this
          have hcum2 : cumD + dist (wps.getD p ((0 : ℚ), (0 : ℚ)))
              (wps.getD i ((0 : ℚ), (0 : ℚ))) ≤ distUpTo dist wps i := by
            linarith
          have hmono : cumD ≤ cumD + dist (wps.getD p ((0 : ℚ), (0 : ℚ)))
              (wps.getD i ((0 : ℚ), (0 : ℚ))) :=
            le_add_of_nonneg_right (hnn _ _)
          have hpush := push_stop_ok
            (nameOf (wps.getD i ((0:ℚ), (0:ℚ))).1 (wps.getD i ((0:ℚ), (0:ℚ))).2)
            (wps.getD i ((0:ℚ), (0:ℚ))).1 (wps.getD i ((0:ℚ), (0:ℚ))).2 acc.length
            (pyInt ((cumD + dist (wps.getD p ((0:ℚ), (0:ℚ))) (wps.getD i ((0:ℚ), (0:ℚ)))) /
              totalRouteDistance dist wps * (T : ℚ)))
            acc cumD _ hmono hacc hsorted
          by_cases hbrk : numStops ≤ acc.length + 1
          · rw [if_pos hbrk] at hout
            obtain rfl := (Option.some.inj hout).symm
            exact return_acc_ok _ _ _
              (hcum2.trans (distUpTo_mono dist wps hnn (by omega))) hpush.1 hpush.2
          · rw [if_neg hbrk] at hout
            exact ih (i + interval) _ _ _ out hout
              (Or.inr ⟨i, hi, rfl, hcum2⟩) hpush.1 hpush.2
      · rw [if_neg hpos] at hout
        obtain rfl : i = 0 := by omega
        have hc0 : cumD = 0 := by
          rcases hstate with ⟨_, rfl⟩ | ⟨p, hp, hip, _⟩
          · rfl
          · exact absurd hip (by omega)
        have hpush := push_stop_ok
          (nameOf (wps.getD 0 ((0:ℚ), (0:ℚ))).1 (wps.getD 0 ((0:ℚ), (0:ℚ))).2)
          (wps.getD 0 ((0:ℚ), (0:ℚ))).1 (wps.getD 0 ((0:ℚ), (0:ℚ))).2 acc.length
          cumT acc cumD cumD (le_refl _) hacc hsorted
        by_cases hbrk : numStops ≤ acc.length + 1
        · rw [if_pos hbrk] at hout
          obtain rfl := (Option.some.inj hout).symm
          refine return_acc_ok _ _ _ ?_ hpush.1 hpush.2
          rw [hc0]
          exact distUpTo_nonneg dist wps hnn _
        · rw [if_neg hbrk] at hout
          refine ih (0 + interval) _ _ _ out hout
            (Or.inr ⟨0, hi, rfl, ?_⟩) hpush.1 hpush.2
          rw [hc0]
          exact le_refl 0 |>.trans (distUpTo_nonneg dist wps hnn 0)
    · rw [if_neg hi] at hout
      obtain rfl := (Option.some.inj hout).symm
      exact return_acc_ok acc cumD _ (htot i cumD hstate) hacc hsorted

/-- The last element of a list with a single element appended. -/
theorem getLast?_append_single {α : Type} (l : List α) (a : α) :
    (l ++ [a]).getLast? = some a := by
  induction l with
  | nil => rfl
  | cons x t ih =>
    rw [List.cons_append]
    cases ht : t ++ [a] with
    | nil => exact absurd ht (by simp)
    | cons y u =>
      rw [List.getLast?_cons_cons, ← ht, ih]

/-- C3, amended.  For every polyline, duration and stop count, whenever
`generate_intermediate_stops` returns (it raises `ZeroDivisionError` on a
zero-length polyline once a sampled index `> 0` is reached, and returns
an empty list for polylines of fewer than two waypoints), the stored
cumulative `distance_from_start_km` values are non-decreasing in sequence
order, and — when the polyline has at least two waypoints — the last
produced stop's `estimated_time_from_start_min` equals the total duration
exactly.  The distance-function hypotheses (nonnegativity and the
triangle inequality) hold for the haversine distance the source uses. -/
theorem generateIntermediateStops_spec (dist : DistFn) (nameOf : ℚ → ℚ → String)
    (wps : List Coord) (T : ℤ) (numStops : ℕ)
    (hnn : ∀ p q, 0 ≤ dist p q)
    (htri : ∀ p q r, dist p r ≤ dist p q + dist q r) :
    ∀ stops, generateIntermediateStops dist nameOf wps T numStops = some stops →
      ((stops.map IStop.distKm).Pairwise (· ≤ ·)) ∧
        (2 ≤ wps.length → stops.getLast?.map IStop.etaMin = some T) := by
  intro stops hgen
  unfold generateIntermediateStops at hgen
  by_cases hlen : wps.length < 2
  · rw [if_pos hlen] at hgen
    obtain rfl := (Option.some.inj hgen).symm
    exact ⟨by simp, fun h => absurd h (by omega)⟩
  · rw [if_neg hlen] at hgen
    cases hloop : genStopsLoop dist nameOf wps T numStops
        (max 1 (wps.length / (numStops + 1))) (wps.length + 1) 0 0 0 [] with
    | none =>
      simp only [hloop] at hgen
      exact Option.noConfusion hgen
    | some loopStops =>
      simp only [hloop] at hgen
      cases hlast : wps.getLast? with
      | none =>
        exfalso
        have hwnil : wps = [] := List.getLast?_eq_none_iff.mp hlast
        rw [hwnil] at hlen
        simp at hlen
      | some wlast =>
        simp only [hlast] at hgen
        obtain rfl := (Option.some.inj hgen).symm
        have hspec := genStopsLoop_sound dist nameOf wps T numStops
          (max 1 (wps.length / (numStops + 1))) hnn htri (le_max_left 1 _)
          (wps.length + 1) 0 0 0 [] loopStops hloop (Or.inl ⟨rfl, rfl⟩)
          (by intro s hs; cases hs) (by simp)
        constructor
        · rw [List.map_append, List.pairwise_append]
          refine ⟨hspec.1, by simp, ?_⟩
          intro a ha b hb
          simp only [List.map_cons, List.map_nil, List.mem_singleton] at hb
          subst hb
          rw [List.mem_map] at ha
          obtain ⟨s, hs, rfl⟩ := ha
          exact hspec.2 s hs
        · intro _
          rw [getLast?_append_single]
          rfl

/-- The taxicab distance is nonnegative. -/
theorem taxiDist_nonneg : ∀ p q : Coord, 0 ≤ taxiDist p q := fun p q =>
  add_nonneg (abs_nonneg (p.1 - q.1)) (abs_nonneg (p.2 - q.2))

/-- The taxicab distance satisfies the triangle inequality. -/
theorem taxiDist_triangle : ∀ p q r : Coord, taxiDist p r ≤ taxiDist p q + taxiDist q r := by
  intro p q r
  unfold taxiDist
  have h1 := abs_sub_le p.1 q.1 r.1
  have h2 := abs_sub_le p.2 q.2 r.2
  linarith

/-- C3, counterexample to the claim as stated: on a one-waypoint polyline
the generator returns the empty stop list, which has no last element
whose ETA could equal the requested total duration. -/
theorem generateIntermediateStops_counterexample :
    (generateIntermediateStops taxiDist (fun _ _ => "Stop") [((0:ℚ), (0:ℚ))] 5 10).map
        (fun l => l.getLast?.map IStop.etaMin) = some none := by
  decide

/-- C3 witness: the amended spec applied to a concrete four-point
polyline with total duration 12 and two requested stops. -/
theorem generateIntermediateStops_spec_witness :
    generateIntermediateStops taxiDist (fun _ _ => "Stop")
        [((0:ℚ), (0:ℚ)), ((0:ℚ), (1:ℚ)), ((0:ℚ), (2:ℚ)), ((0:ℚ), (3:ℚ))] 12 2 =
      some [⟨"Stop", 0, 0, 0, 0, 0⟩, ⟨"Stop", 0, 1, 1, 1, 4⟩, ⟨"Stop", 0, 3, 2, 3, 12⟩] ∧
    (([⟨"Stop", 0, 0, 0, 0, 0⟩, ⟨"Stop", 0, 1, 1, 1, 4⟩,
        ⟨"Stop", 0, 3, 2, 3, 12⟩] : List IStop).map IStop.distKm).Pairwise (· ≤ ·) ∧
    ([⟨"Stop", 0, 0, 0, 0, 0⟩, ⟨"Stop", 0, 1, 1, 1, 4⟩,
        ⟨"Stop", 0, 3, 2, 3, 12⟩] : List IStop).getLast?.map IStop.etaMin = some 12 := by
  have h := generateIntermediateStops_spec taxiDist (fun _ _ => "Stop")
    [((0:ℚ), (0:ℚ)), ((0:ℚ), (1:ℚ)), ((0:ℚ), (2:ℚ)), ((0:ℚ), (3:ℚ))] 12 2
    taxiDist_nonneg taxiDist_triangle
    [⟨"Stop", 0, 0, 0, 0, 0⟩, ⟨"Stop", 0, 1, 1, 1, 4⟩, ⟨"Stop", 0, 3, 2, 3, 12⟩]
    (by decide)
  exact ⟨by decide, h.1, h.2 (by decide)⟩
